import Mathlib

/-!
Verification development for the ehdb crawl-and-synchronization engine.

The definitions below are a shallow embedding of the Go source under
internal/crawler (retry.go, importer.go, gallery.go, replaced_marker.go),
pkg/utils (tag normalization) and the torrent importer.  Machine integers
are modelled as Int with explicit 64-bit wrap-around where Go arithmetic
can overflow.  Database tables are modelled as lists of rows; every SQL
statement executed by the crawler is modelled by a pure function on those
lists.  Unicode-dependent Go helpers (strings.ToLower, unicode.IsSpace)
are modelled on their ASCII fragment, which is the fragment exercised by
the data formats involved (hex tokens, digits, tag strings).
-/

namespace Ehdb

/-- Signed 64-bit wrap-around, modelling Go int64 overflow semantics. -/
def wrap64 (x : Int) : Int := (x + 2 ^ 63) % 2 ^ 64 - 2 ^ 63

/-- Largest value of a Go int64 (Atoi / ParseInt range bound). -/
def maxInt64 : Int := 2 ^ 63 - 1

/-- Smallest value of a Go int64. -/
def minInt64 : Int := -(2 ^ 63)

/-- Decimal digit test, as in Go unicode 0-9 for the formats parsed here. -/
def isDigitCh (c : Char) : Bool := '0' ≤ c && c ≤ '9'

/-- Value of a list of decimal digit characters, most significant first. -/
def digitsVal (l : List Char) : Nat := l.foldl (fun a c => a * 10 + (c.toNat - 48)) 0

/-- Digit-run check: nonempty and all decimal digits. -/
def allDigits (l : List Char) : Bool := !l.isEmpty && l.all isDigitCh

/-- Model of Go strconv.ParseInt(s, 10, 64): optional sign, decimal digits,
64-bit range check; any violation is an error (none). -/
def parseInt64 (s : String) : Option Int :=
  match s.data with
  | [] => none
  | c :: rest =>
    let (neg, digits) :=
      if c = '-' then (true, rest)
      else if c = '+' then (false, rest)
      else (false, c :: rest)
    if allDigits digits then
      let v : Int := if neg then -(digitsVal digits : Int) else (digitsVal digits : Int)
      if minInt64 ≤ v ∧ v ≤ maxInt64 then some v else none
    else none

/-- Model of Go strconv.Atoi with the error ignored, as the importer does:
syntax errors yield 0, range errors yield the clamped extreme value. -/
def atoiGo (s : String) : Int :=
  match s.data with
  | [] => 0
  | c :: rest =>
    let (neg, digits) :=
      if c = '-' then (true, rest)
      else if c = '+' then (false, rest)
      else (false, c :: rest)
    if allDigits digits then
      let v : Int := if neg then -(digitsVal digits : Int) else (digitsVal digits : Int)
      if v < minInt64 then minInt64 else if v > maxInt64 then maxInt64 else v
    else 0

/-- Model of Go strconv.ParseFloat with the error ignored, restricted to the
plain decimal forms produced by the metadata API (sign, digits, optional
fractional part); anything else yields 0.  The claims never compare rating
values, so exact float64 rounding is not modelled; the parsed value is kept
as an exact rational. -/
def parseRatGo (s : String) : Rat :=
  match s.data with
  | [] => 0
  | c :: rest =>
    let (neg, body) :=
      if c = '-' then (true, rest)
      else if c = '+' then (false, rest)
      else (false, c :: rest)
    let intPart := body.takeWhile isDigitCh
    let afterInt := body.drop intPart.length
    let (fracPart, trailing) :=
      match afterInt with
      | '.' :: tl => (tl.takeWhile isDigitCh, tl.drop (tl.takeWhile isDigitCh).length)
      | _ => ([], afterInt)
    if trailing = [] ∧ (intPart ≠ [] ∨ fracPart ≠ []) ∧ intPart.all isDigitCh then
      let mag : Rat := (digitsVal intPart : Rat) + (digitsVal fracPart : Rat) / ((10 : Rat) ^ fracPart.length)
      if neg then -mag else mag
    else 0

/-- ASCII fragment of Go unicode.IsSpace, used by TrimSpace and Fields. -/
def isSpaceGo (c : Char) : Bool :=
  c = ' ' || c = '\t' || c = '\n' || c = '\x0b' || c = '\x0c' || c = '\r'

/-- Whitespace character class of Go regexp (RE2 Perl class): tab, newline,
form feed, carriage return, space. -/
def isSpaceRE (c : Char) : Bool :=
  c = '\t' || c = '\n' || c = '\x0c' || c = '\r' || c = ' '

/-- Substring containment on character lists (Go strings.Contains). -/
def listContains (hay need : List Char) : Bool :=
  match hay with
  | [] => need.isEmpty
  | _ :: t => need.isPrefixOf hay || listContains t need

/-- Model of Go strings.Contains. -/
def strContainsGo (s sub : String) : Bool := listContains s.data sub.data

/-- Model of Go strings.TrimSpace (ASCII whitespace fragment). -/
def goTrimSpace (s : String) : String :=
  ⟨((s.data.dropWhile isSpaceGo).reverse.dropWhile isSpaceGo).reverse⟩

/-- Model of Go strings.ToLower (ASCII fragment). -/
def goToLower (s : String) : String := ⟨s.data.map Char.toLower⟩

/-- Word accumulator for the model of strings.Fields; the first argument is
the remaining input, the second the current word reversed. -/
def goFieldsAux : List Char → List Char → List (List Char)
  | [], acc => if acc.isEmpty then [] else [acc.reverse]
  | c :: t, acc =>
    if isSpaceGo c then
      if acc.isEmpty then goFieldsAux t [] else acc.reverse :: goFieldsAux t []
    else goFieldsAux t (c :: acc)

/-- Word splitter underlying Go strings.Fields: splits around maximal
whitespace runs. -/
def goFieldsList (l : List Char) : List (List Char) := goFieldsAux l []

/-- Model of strings.Join(strings.Fields(s), " "): whitespace collapse. -/
def goFieldsJoin (s : String) : String :=
  String.intercalate " " ((goFieldsList s.data).map (fun w => ⟨w⟩))

/-- Namespace shortcut table from pkg/utils (shortMap). -/
def shortMapLookup (ns : String) : Option String :=
  match ns with
  | "a" => some "artist"
  | "c" => some "character"
  | "char" => some "character"
  | "cos" => some "cosplayer"
  | "f" => some "female"
  | "g" => some "group"
  | "circle" => some "group"
  | "l" => some "language"
  | "lang" => some "language"
  | "loc" => some "location"
  | "m" => some "male"
  | "x" => some "mixed"
  | "o" => some "other"
  | "p" => some "parody"
  | "series" => some "parody"
  | "r" => some "reclass"
  | _ => none

/-- Split at the first colon, modelling strings.SplitN(s, ":", 2). -/
def splitOnceColon (l : List Char) : List Char × List Char :=
  let before := l.takeWhile (fun c => c ≠ ':')
  (before, (l.drop before.length).drop 1)

/-- Model of utils.NormalizeTag: trim, lowercase, collapse whitespace,
expand namespace shortcuts. -/
def NormalizeTag (tag : String) : String :=
  let t := goFieldsJoin (goToLower (goTrimSpace tag))
  if t.data.contains ':' then
    let (ns, pat) := splitOnceColon t.data
    match shortMapLookup ⟨ns⟩ with
    | some full => full ++ ":" ++ (⟨pat⟩ : String)
    | none => t
  else t

/-! Model of parseIPBanDuration (retry.go).  The Go code matches the lazy
regex "ban expires in (.+?)\\)" and then searches the captured group for
"(\\d+)\\s+hour", "(\\d+)\\s+minute" and "(\\d+)\\s+second", summing the
components as time.Duration (int64 nanoseconds, wrapping on overflow). -/

/-- Lazy capture of the regex fragment (.+?)\\): the shortest nonempty run of
non-newline characters followed by a closing parenthesis. -/
def lazyGroup : List Char → Option (List Char)
  | [] => none
  | c :: rest =>
    if c = '\n' then none
    else
      match rest with
      | ')' :: _ => some [c]
      | _ => (lazyGroup rest).map (fun tl => c :: tl)

/-- Leftmost match of the pattern "ban expires in (.+?)\\)": scan every
starting position; at a literal occurrence, try the lazy group and fall
through to later positions on failure, as the regex engine does. -/
def findBanDuration : List Char → Option (List Char)
  | [] => none
  | c :: rest =>
    if ("ban expires in ".data).isPrefixOf (c :: rest) then
      match lazyGroup ((c :: rest).drop ("ban expires in ".data).length) with
      | some d => some d
      | none => findBanDuration rest
    else findBanDuration rest

/-- Leftmost match of "(\\d+)\\s+unit" inside the captured duration string:
a maximal digit run, at least one RE2 whitespace character, then the unit
literal; returns the digit run. -/
def findNumUnit (unit : List Char) : List Char → Option (List Char)
  | [] => none
  | c :: rest =>
    if isDigitCh c then
      let run := (c :: rest).takeWhile isDigitCh
      let after := (c :: rest).drop run.length
      let ws := after.takeWhile isSpaceRE
      if ws.length ≠ 0 && unit.isPrefixOf (after.drop ws.length) then some run
      else findNumUnit unit rest
    else findNumUnit unit rest

/-- Contribution of one time component: strconv.Atoi on the digit run
(skipped when it overflows int64, since the Go code checks err == nil),
scaled to nanoseconds and added with int64 wrap-around. -/
def addComponent (total : Int) (scale : Int) (run : Option (List Char)) : Int :=
  match run with
  | none => total
  | some ds =>
    if (digitsVal ds : Int) ≤ maxInt64 then
      wrap64 (total + wrap64 ((digitsVal ds : Int) * scale))
    else total

/-- Model of parseIPBanDuration (retry.go): returns the remaining ban time
in nanoseconds and whether the message is recognized as a temporary ban. -/
def parseIPBanDuration (errMsg : String) : Int × Bool :=
  if !(strContainsGo errMsg "temporarily banned") then (0, false)
  else
    match findBanDuration errMsg.data with
    | none => (0, false)
    | some durStr =>
      let t1 := addComponent 0 3600000000000 (findNumUnit "hour".data durStr)
      let t2 := addComponent t1 60000000000 (findNumUnit "minute".data durStr)
      let t3 := addComponent t2 1000000000 (findNumUnit "second".data durStr)
      if t3 > 0 then (t3, true) else (0, false)

/-- Sample ban message used by the spec's testable property for C7. -/
def banMsg : String :=
  "Your IP address has been temporarily banned for excessive pageloads (The ban expires in 1 hour and 30 minutes)"

/-! Model of Retry / RetryVoid (retry.go).  The wrapped operation is
represented by the finite trace of outcomes its successive invocations
produce; the executor consumes that trace.  Sleeps are recorded in
nanoseconds in call order. -/

/-- Outcome of one invocation of the wrapped operation. -/
inductive Outcome (α : Type) where
  | ok (v : α)
  | fail (msg : String)
deriving DecidableEq, Repr

/-- Result of the retry loop on a finite trace: success, the terminal
"exceeded max retries" error (carrying the reported attempt count and the
last underlying error), or a loop still running when the trace ends. -/
inductive RetryResult (α : Type) where
  | success (v : α) (sleeps : List Int)
  | exceeded (attempts : Nat) (lastErr : String) (sleeps : List Int)
  | running (attempt : Nat) (lastErr : Option String) (sleeps : List Int)
deriving DecidableEq, Repr

/-- Retry configuration (retry.go RetryConfig, logger omitted). -/
structure RetryConfig where
  MaxRetries : Int
  WaitForIPUnban : Bool
deriving DecidableEq, Repr

/-- Sleep performed for a recognized ban: parsed duration plus ten seconds,
in nanoseconds with int64 wrap-around. -/
def banSleepNs (msg : String) : Int := wrap64 ((parseIPBanDuration msg).1 + 10000000000)

/-- Backoff sleep after failed attempt i (0-based): (i+1)*5 seconds. -/
def backoffNs (i : Nat) : Int := (i + 1 : Int) * 5000000000

/-- Main loop of Retry: i is the 0-based attempt counter, reset to 0 after a
ban suspension exactly as the Go loop sets i = -1 and continues. -/
def retryLoop (banAware : Bool) (maxRetries : Nat) :
    Nat → Option String → List Int → List (Outcome α) → RetryResult α
  | i, lastErr, sleeps, outcomes =>
    if i < maxRetries then
      match outcomes with
      | [] => .running i lastErr sleeps
      | .ok v :: _ => .success v sleeps
      | .fail msg :: rest =>
        if banAware && (parseIPBanDuration msg).2 then
          retryLoop banAware maxRetries 0 (some msg) (sleeps ++ [banSleepNs msg]) rest
        else if i < maxRetries - 1 then
          retryLoop banAware maxRetries (i + 1) (some msg) (sleeps ++ [backoffNs i]) rest
        else
          retryLoop banAware maxRetries (i + 1) (some msg) sleeps rest
    else .exceeded maxRetries (lastErr.getD "") sleeps

/-- Effective retry bound: MaxRetries, or the fallback default 3 when the
configured value is not positive. -/
def effectiveMaxRetries (cfg : RetryConfig) : Nat :=
  if cfg.MaxRetries ≤ 0 then 3 else cfg.MaxRetries.toNat

/-- Model of Retry (retry.go): generic over the operation result type. -/
def Retry (cfg : RetryConfig) (outcomes : List (Outcome α)) : RetryResult α :=
  retryLoop cfg.WaitForIPUnban (effectiveMaxRetries cfg) 0 none [] outcomes

/-- Model of RetryVoid (retry.go): the body of RetryVoid is the body of
Retry at a unit result type. -/
def RetryVoid (cfg : RetryConfig) (outcomes : List (Outcome Unit)) : RetryResult Unit :=
  Retry cfg outcomes

/-! Data model: the gallery table (migration post_migration.sql) and the
metadata records returned by the gdata API (internal/database/models.go).
The tags column is JSONB text produced by tagsToJSON; posted is stored as
its epoch value, which is exactly what loadGalleries reads back. -/

/-- Row of the gallery table.  Columns absent from the crawler's INSERT take
their schema defaults: removed/replaced/bytorrent false, root_gid null. -/
structure GalleryRow where
  gid : Int
  token : String
  archiverKey : String
  title : String
  titleJpn : String
  category : String
  thumb : String
  uploader : String
  posted : Int
  filecount : Int
  filesize : Int
  expunged : Bool
  removed : Bool
  replaced : Bool
  rating : Rat
  torrentcount : Int
  rootGid : Option Int
  bytorrent : Bool
  tags : String
deriving DecidableEq, Repr

/-- Metadata record from the E-Hentai API (database.GalleryMetadata). -/
structure GalleryMetadata where
  gid : Int
  token : String
  archiverKey : String
  title : String
  titleJpn : String
  category : String
  thumb : String
  uploader : String
  posted : String
  filecount : String
  filesize : Int
  expunged : Bool
  rating : String
  torrentcount : String
  tags : List String
  error : String
deriving DecidableEq, Repr

/-- Model of tagsToJSON (importer.go): JSON array text, no escaping. -/
def tagsToJSON (tags : List String) : String :=
  if tags.isEmpty then "[]"
  else "[" ++ String.intercalate "," (tags.map (fun t => "\"" ++ t ++ "\"")) ++ "]"

/-- Model of Importer.loadGalleries: the gid -> posted-epoch map, read once
before the import loop. -/
def loadGalleries (table : List GalleryRow) : List (Int × Int) :=
  table.map (fun g => (g.gid, g.posted))

/-- Lookup in the existing-galleries map. -/
def lookupPosted (m : List (Int × Int)) (gid : Int) : Option Int :=
  match m.find? (fun p => p.1 = gid) with
  | some p => some p.2
  | none => none

/-- Row built by Importer.insertGallery from a metadata record; columns not
named in the INSERT receive their schema defaults. -/
def insertRow (m : GalleryMetadata) (postedInt fc : Int) (rt : Rat) (tc : Int)
    (tagsJSON : String) : GalleryRow :=
  { gid := m.gid, token := m.token, archiverKey := m.archiverKey, title := m.title,
    titleJpn := m.titleJpn, category := m.category, thumb := m.thumb,
    uploader := m.uploader, posted := postedInt, filecount := fc,
    filesize := m.filesize, expunged := m.expunged, removed := false,
    replaced := false, rating := rt, torrentcount := tc, rootGid := none,
    bytorrent := false, tags := tagsJSON }

/-- Model of Importer.insertGallery: a primary-key conflict makes the INSERT
fail, which the import loop logs and skips, leaving the table unchanged. -/
def insertGallery (table : List GalleryRow) (row : GalleryRow) : List GalleryRow :=
  if table.any (fun g => g.gid = row.gid) then table else table ++ [row]

/-- Model of Importer.updateGallery: the UPDATE rewrites every metadata
column of the row with matching gid and clears bytorrent; gid, root_gid,
replaced and removed are untouched. -/
def updateGallery (table : List GalleryRow) (m : GalleryMetadata) (postedInt fc : Int)
    (rt : Rat) (tc : Int) (tagsJSON : String) : List GalleryRow :=
  table.map (fun g =>
    if g.gid = m.gid then
      { g with
          token := m.token, archiverKey := m.archiverKey, title := m.title,
          titleJpn := m.titleJpn, category := m.category, thumb := m.thumb,
          uploader := m.uploader, posted := postedInt, filecount := fc,
          filesize := m.filesize, expunged := m.expunged, rating := rt,
          torrentcount := tc, bytorrent := false, tags := tagsJSON }
    else g)

/-- One iteration of the import loop of Importer.Import: skip records whose
API response carries an error, skip records whose posted field does not
parse, insert absent gids, and update present gids only when force is set
or the new timestamp is strictly newer. -/
def importOne (existing : List (Int × Int)) (force : Bool)
    (table : List GalleryRow) (m : GalleryMetadata) : List GalleryRow :=
  if m.error ≠ "" then table
  else
    let normalizedTags := m.tags.map NormalizeTag
    match parseInt64 m.posted with
    | none => table
    | some postedInt =>
      let fc := atoiGo m.filecount
      let rt := parseRatGo m.rating
      let tc := atoiGo m.torrentcount
      let tagsJSON := tagsToJSON normalizedTags
      match lookupPosted existing m.gid with
      | none => insertGallery table (insertRow m postedInt fc rt tc tagsJSON)
      | some existingPosted =>
        if force || postedInt > existingPosted then
          updateGallery table m postedInt fc rt tc tagsJSON
        else table

/-- Model of Importer.Import: the existing-gid map is loaded once, then the
records are processed in order. -/
def importMetadata (table : List GalleryRow) (metadataList : List GalleryMetadata)
    (force : Bool) : List GalleryRow :=
  metadataList.foldl (importOne (loadGalleries table) force) table

/-! Model of ReplacedMarker.MarkReplaced (replaced_marker.go).  The UPDATE
sets replaced = (gid NOT IN (SELECT MAX(gid) FROM gallery GROUP BY
COALESCE(root_gid, gid))) on every row WHERE root_gid IS NOT NULL. -/

/-- Version-group key of a row: COALESCE(root_gid, gid). -/
def groupKey (g : GalleryRow) : Int := g.rootGid.getD g.gid

/-- Maximum of a list of Int; results only consumed on nonempty lists. -/
def intListMax : List Int → Int
  | [] => 0
  | [x] => x
  | x :: y :: t => max x (intListMax (y :: t))

/-- Gids of the members of the group with key k. -/
def groupGids (t : List GalleryRow) (k : Int) : List Int :=
  (t.filter (fun g => groupKey g = k)).map (fun g => g.gid)

/-- MAX(gid) of the group with key k. -/
def maxGidOf (t : List GalleryRow) (k : Int) : Int := intListMax (groupGids t k)

/-- Result set of the subquery SELECT MAX(gid) ... GROUP BY
COALESCE(root_gid, gid): one maximal gid per distinct group key. -/
def groupMaxes (t : List GalleryRow) : List Int :=
  ((t.map groupKey).dedup).map (maxGidOf t)

/-- Per-row effect of the MarkReplaced UPDATE. -/
def markRow (maxes : List Int) (g : GalleryRow) : GalleryRow :=
  if g.rootGid.isSome then
    { g with replaced := if g.gid ∈ maxes then false else true }
  else g

/-- Model of ReplacedMarker.MarkReplaced (replaced_marker.go): rows with a
null root_gid are outside the UPDATE's WHERE clause and are untouched. -/
def markReplaced (t : List GalleryRow) : List GalleryRow :=
  t.map (markRow (groupMaxes t))

/-- Number of members of the group with key k. -/
def groupSize (t : List GalleryRow) (k : Int) : Nat :=
  (t.filter (fun g => groupKey g = k)).length

/-- Model of the CTE variant of MarkReplaced (the latest_versions query with
HAVING COUNT(*) > 1): rows in singleton groups are untouched; in larger
groups replaced becomes (gid != max).  The additional predicate
g.replaced != (g.gid != lv.max_gid) in the SQL only suppresses writes whose
value is already current, so the resulting state is the same. -/
def markReplacedMulti (t : List GalleryRow) : List GalleryRow :=
  t.map (fun g =>
    if 1 < groupSize t (groupKey g) then
      { g with replaced := decide (g.gid ≠ maxGidOf t (groupKey g)) }
    else g)

/-- Per-row effect of the CTE-variant UPDATE, named so that properties of
markReplacedMulti can be stated row by row; markReplacedMulti t is exactly
the map of this function over the table. -/
def markRowMulti (t : List GalleryRow) (g : GalleryRow) : GalleryRow :=
  if 1 < groupSize t (groupKey g) then
    { g with replaced := decide (g.gid ≠ maxGidOf t (groupKey g)) }
  else g

/-- Default row used to build concrete tables in witnesses. -/
def baseRow : GalleryRow :=
  { gid := 0, token := "", archiverKey := "", title := "", titleJpn := "",
    category := "", thumb := "", uploader := "", posted := 0, filecount := 0,
    filesize := 0, expunged := false, removed := false, replaced := false,
    rating := 0, torrentcount := 0, rootGid := none, bytorrent := false,
    tags := "[]" }

/-! Model of the torrent store and of the per-gallery torrent processing
shared by TorrentCrawler.processTorrentsForGallery (importer.go) and
TorrentImporter.processGallery: parsed rows keep only those with a content
hash that is not already stored in the root group, and the survivors are
upserted by (id, gid). -/

/-- Row of the torrent table (database.Torrent). -/
structure TorrentRow where
  id : Int
  gid : Int
  name : String
  hash : Option String
  addedstr : Option String
  fsizestr : Option String
  uploader : String
  expunged : Bool
deriving DecidableEq, Repr

/-- Model of getExistingTorrentHashes: SELECT hash FROM torrent WHERE
gid = rootGid AND hash IS NOT NULL. -/
def existingTorrentHashes (store : List TorrentRow) (rootGid : Int) : List String :=
  (store.filter (fun s => s.gid = rootGid)).filterMap (fun s => s.hash)

/-- Filter step of processGallery / processTorrentsForGallery: keep a parsed
row only if t.Hash != nil and the hash is not among the stored hashes. -/
def filterNewTorrents (parsed : List TorrentRow) (existingHashes : List String) :
    List TorrentRow :=
  parsed.filter (fun t =>
    match t.hash with
    | some h => !existingHashes.contains h
    | none => false)

/-- Model of the INSERT ... ON CONFLICT (id, gid) DO UPDATE of saveTorrents:
replace the row with the same (id, gid) or append. -/
def upsertTorrent (store : List TorrentRow) (t : TorrentRow) : List TorrentRow :=
  if store.any (fun s => s.id = t.id && s.gid = t.gid) then
    store.map (fun s => if s.id = t.id && s.gid = t.gid then t else s)
  else store ++ [t]

/-- Model of saveTorrents: sequential upserts. -/
def saveTorrents (store : List TorrentRow) (ts : List TorrentRow) : List TorrentRow :=
  ts.foldl upsertTorrent store

/-- Torrent persistence step for one gallery page: dedup against the stored
hashes of the root group, then save the survivors. -/
def processGalleryTorrents (store : List TorrentRow) (rootGid : Int)
    (parsed : List TorrentRow) : List TorrentRow :=
  saveTorrents store (filterNewTorrents parsed (existingTorrentHashes store rootGid))

/-- Default torrent row for concrete witnesses. -/
def baseTorrent : TorrentRow :=
  { id := 0, gid := 0, name := "", hash := none, addedstr := none,
    fsizestr := none, uploader := "", expunged := false }

/-! Model of GalleryCrawler.fetchPages (gallery.go) and its posted-time
parser.  The listing source is abstracted as the sequence of pages it
serves; fetching past the end of that sequence yields the empty page that
terminates the loop in the Go code. -/

/-- Item of the gallery listing page (gallery.go GalleryListItem). -/
structure GalleryListItem where
  gid : String
  token : String
  posted : String
deriving DecidableEq, Repr

/-- Days in a month of the proleptic Gregorian calendar, as validated by Go
time.Parse. -/
def daysInMonth (y mo : Nat) : Nat :=
  if mo = 2 then
    if y % 4 = 0 ∧ (y % 100 ≠ 0 ∨ y % 400 = 0) then 29 else 28
  else if mo = 4 ∨ mo = 6 ∨ mo = 9 ∨ mo = 11 then 30
  else 31

/-- Days since 1970-01-01 of a civil date (standard era-based algorithm). -/
def daysFromCivil (y mo d : Int) : Int :=
  let yy := y - (if mo ≤ 2 then 1 else 0)
  let era := Int.fdiv yy 400
  let yoe := yy - era * 400
  let doy := Int.fdiv (153 * (mo + (if 2 < mo then -3 else 9)) + 2) 5 + d - 1
  let doe := yoe * 365 + Int.fdiv yoe 4 - Int.fdiv yoe 100 + doy
  era * 146097 + doe - 719468

/-- Value of two decimal digit characters. -/
def twoDigits (a b : Char) : Nat := (a.toNat - 48) * 10 + (b.toNat - 48)

/-- Model of parsePostedTime (gallery.go): time.Parse("2006-01-02 15:04")
interpreted in UTC, returning a Unix timestamp; malformed or out-of-range
components are an error. -/
def parsePostedTime (s : String) : Option Int :=
  match s.data with
  | [y1, y2, y3, y4, '-', m1, m2, '-', d1, d2, ' ', h1, h2, ':', n1, n2] =>
    if [y1, y2, y3, y4, m1, m2, d1, d2, h1, h2, n1, n2].all isDigitCh then
      let y := twoDigits y1 y2 * 100 + twoDigits y3 y4
      let mo := twoDigits m1 m2
      let d := twoDigits d1 d2
      let hh := twoDigits h1 h2
      let mi := twoDigits n1 n2
      if 1 ≤ mo ∧ mo ≤ 12 ∧ 1 ≤ d ∧ d ≤ daysInMonth y mo ∧ hh ≤ 23 ∧ mi ≤ 59 then
        some (daysFromCivil y mo d * 86400 + hh * 3600 + mi * 60)
      else none
    else none
  | _ => none

/-- Ordering key of a listing item: its parsed posted time. -/
def itemKey (it : GalleryListItem) : Int := (parsePostedTime it.posted).getD 0

/-- Inner item scan of fetchPages: accumulate items strictly newer than
lastPosted, skip unparseable ones, stop at the first item not newer; the
Bool is the finish flag. -/
def scanItems (lastPosted : Int) : List GalleryListItem → List GalleryListItem × Bool
  | [] => ([], false)
  | it :: its =>
    match parsePostedTime it.posted with
    | none => scanItems lastPosted its
    | some posted =>
      if posted > lastPosted then
        let r := scanItems lastPosted its
        (it :: r.1, r.2)
      else ([], true)

/-- Model of GalleryCrawler.fetchPages: returns the accumulated items and
the number of page fetches performed.  An empty page (including the empty
page served past the end of the listing) breaks the loop. -/
def fetchPages (lastPosted : Int) : List (List GalleryListItem) → List GalleryListItem × Nat
  | [] => ([], 1)
  | p :: rest =>
    if p.isEmpty then ([], 1)
    else
      let r := scanItems lastPosted p
      if r.2 then (r.1, 1)
      else
        let next := fetchPages lastPosted rest
        (r.1 ++ next.1, next.2 + 1)

/-! Model of the torrent-sync pipeline (TorrentCrawler.Sync, importer.go)
from the point where the listing items have been fetched: group the items
by gallery, import the galleries missing from the store, then fetch and
persist each gallery's torrents.  Network endpoints are oracles; Go map
iteration order is unspecified, so the model fixes first-occurrence order,
on which no claim depends.  Effects on shared state are recorded as an
event trace so that ordering properties can be stated. -/

/-- Item of the torrent listing page (TorrentListItem). -/
structure TorrentListItem where
  gid : Int
  token : String
  gtid : Int
deriving DecidableEq, Repr

/-- Classification of a gallery's torrent page body (processTorrentsForGallery). -/
inductive TorrentPageResult where
  | unavailable
  | notFound
  | noAnnounce
  | torrents (rootGid : Int) (parsed : List TorrentRow)
deriving DecidableEq, Repr

/-- Observable store effects of a torrent-sync run, in execution order. -/
inductive SyncEvent where
  | importCall (gids : List Int) (force : Bool)
  | markBytorrent (gids : List Int)
  | persistTorrents (gid : Int) (rootGid : Int) (saved : List TorrentRow)
  | setRootGid (gid : Int) (rootGid : Int)
deriving DecidableEq, Repr

/-- First-occurrence deduplication with an explicit seen list, modelling the
key set of a Go map built by insertion. -/
def distinctFirstAux (seen : List Int) : List Int → List Int
  | [] => []
  | x :: xs =>
    if x ∈ seen then distinctFirstAux seen xs
    else x :: distinctFirstAux (x :: seen) xs

/-- Distinct values of a list in first-occurrence order. -/
def distinctFirst (l : List Int) : List Int := distinctFirstAux [] l

/-- Model of the gidlist construction of importMissingGalleries: one
(gid, token) pair per missing gallery, first token wins. -/
def buildGidlistAux (missing : List Int) (seen : List Int) :
    List TorrentListItem → List (Int × String)
  | [] => []
  | it :: its =>
    if it.gid ∈ missing ∧ it.gid ∉ seen then
      (it.gid, it.token) :: buildGidlistAux missing (it.gid :: seen) its
    else buildGidlistAux missing seen its

/-- Fixed-size batching (batch size 25) of the metadata requests; the
accumulator holds the current batch reversed, room its remaining capacity. -/
def chunksAux : List α → List α → Nat → List (List α)
  | [], acc, _ => if acc.isEmpty then [] else [acc.reverse]
  | x :: xs, acc, room =>
    if room = 0 then acc.reverse :: chunksAux xs [x] 24
    else chunksAux xs (x :: acc) (room - 1)

/-- Partition into chunks of 25, as the metadata fetch loops do. -/
def chunks25 (l : List α) : List (List α) := chunksAux l [] 25

/-- Model of TorrentCrawler.importMissingGalleries: fetch metadata for the
missing galleries in batches of 25 through the oracle, then run one
metadata import with force = false; returns the new table and the events. -/
def importMissingGalleries (metaOracle : Int → GalleryMetadata)
    (table : List GalleryRow) (items : List TorrentListItem) (missing : List Int) :
    List GalleryRow × List SyncEvent :=
  let gidlist := buildGidlistAux missing [] items
  let allMetadata := (chunks25 gidlist).flatMap (fun batch => batch.map (fun p => metaOracle p.1))
  if allMetadata.isEmpty then (table, [])
  else (importMetadata table allMetadata false,
        [SyncEvent.importCall (allMetadata.map (fun m => m.gid)) false])

/-- Model of TorrentCrawler.processTorrentsForGallery for one gallery:
classify the page, dedup and save torrents for the root group, then update
root_gid; unavailable/not-found/no-announce pages change nothing. -/
def processOneGallery (pageOracle : Int → TorrentPageResult)
    (store : List TorrentRow) (gid : Int) : List TorrentRow × List SyncEvent :=
  match pageOracle gid with
  | .unavailable => (store, [])
  | .notFound => (store, [])
  | .noAnnounce => (store, [])
  | .torrents rootGid parsed =>
    let newTs := filterNewTorrents parsed (existingTorrentHashes store rootGid)
    (saveTorrents store newTs,
     (if newTs.isEmpty then [] else [SyncEvent.persistTorrents gid rootGid newTs]) ++
       [SyncEvent.setRootGid gid rootGid])

/-- Gallery identifiers discovered on the listing, in first-occurrence
order (the Go code uses the key set of a map grouped by gid). -/
def discoveredGids (items : List TorrentListItem) : List Int :=
  distinctFirst (items.map (fun it => it.gid))

/-- Gallery identifiers of the listing that are missing from the table. -/
def missingGids (table : List GalleryRow) (items : List TorrentListItem) : List Int :=
  (discoveredGids items).filter (fun g => !table.any (fun r => r.gid = g))

/-- Model of TorrentCrawler.Sync after the listing has been fetched: import
missing galleries (marking the touched groups bytorrent), then process each
discovered gallery's torrent page.  Returns the final gallery table, the
final torrent store, and the event trace. -/
def torrentSyncCore (metaOracle : Int → GalleryMetadata)
    (pageOracle : Int → TorrentPageResult) (table : List GalleryRow)
    (store : List TorrentRow) (items : List TorrentListItem) :
    List GalleryRow × List TorrentRow × List SyncEvent :=
  if items.isEmpty then (table, store, [])
  else
    let gids := discoveredGids items
    let missing := missingGids table items
    let impResult :=
      if missing.isEmpty then (table, [])
      else
        let r := importMissingGalleries metaOracle table items missing
        (r.1, r.2 ++ [SyncEvent.markBytorrent gids])
    let procResult := gids.foldl
      (fun (acc : List TorrentRow × List SyncEvent) g =>
        let r := processOneGallery pageOracle acc.1 g
        (r.1, acc.2 ++ r.2))
      (store, [])
    (impResult.1, procResult.1, impResult.2 ++ procResult.2)

/-- Concrete metadata oracle for witnesses. -/
def cxMetaOracle (g : Int) : GalleryMetadata :=
  { gid := g, token := "abcdef0123", archiverKey := "", title := "t",
    titleJpn := "", category := "Manga", thumb := "", uploader := "u",
    posted := "100", filecount := "1", filesize := 10, expunged := false,
    rating := "4.5", torrentcount := "1", tags := [], error := "" }

/-- Concrete torrent row for witnesses: gallery 5's single hashed torrent. -/
def cxTorrentRow : TorrentRow :=
  { baseTorrent with
      id := 1, gid := 5, hash := some "0123456789012345678901234567890123456789" }

/-- Concrete page oracle for witnesses: gallery 5 is its own root and has a
single hashed torrent. -/
def cxPageOracle (g : Int) : TorrentPageResult :=
  if g = 5 then .torrents 5 [cxTorrentRow] else .noAnnounce

/-- Row with a stale stored timestamp, for the staleness-guard witness. -/
def cxStaleRow : GalleryRow := { baseRow with gid := 1, posted := 50 }

/-- Metadata record whose posted field does not parse. -/
def cxBadMeta : GalleryMetadata := { cxMetaOracle 2 with posted := "not-a-number" }

/-- Row with a null root_gid and replaced already true: the whole stored set
for the MarkReplaced counterexample. -/
def cxLoneRow : GalleryRow := { baseRow with gid := 1, replaced := true }

/-- Row with a null root_gid used by the frame-effect witness. -/
def cxNullRootRow : GalleryRow := { baseRow with gid := 3, replaced := true }

/-- Parsed torrent row without a content hash (an expunged entry on the
torrent page), as produced by TorrentImporter.parseTorrents. -/
def cxNoHashTorrent : TorrentRow := { baseTorrent with id := 9, gid := 7, expunged := true }

/-- Parsed torrent row duplicating the stored hash of cxTorrentRow under a
different sequence id. -/
def cxDupTorrent : TorrentRow := { baseTorrent with id := 2, gid := 5, hash := cxTorrentRow.hash }

/-- Two-member version group rooted at gid 1, for the consolidation witness. -/
def cxPairA : GalleryRow := { baseRow with gid := 1, rootGid := some 1 }

/-- Second member of the witness group, the latest version. -/
def cxPairB : GalleryRow := { baseRow with gid := 2, rootGid := some 1 }

/-- Synthetic three-page listing with strictly decreasing posted times, for
the pagination witness. -/
def cxPages : List (List GalleryListItem) :=
  [[⟨"1", "aaaaaaaaaa", "2024-01-06 00:00"⟩, ⟨"2", "aaaaaaaaaa", "2024-01-05 00:00"⟩],
   [⟨"3", "aaaaaaaaaa", "2024-01-04 00:00"⟩, ⟨"4", "aaaaaaaaaa", "2024-01-03 00:00"⟩],
   [⟨"5", "aaaaaaaaaa", "2024-01-02 00:00"⟩, ⟨"6", "aaaaaaaaaa", "2024-01-01 00:00"⟩]]

/-- High-water mark equal to the posted time of the fifth listing item. -/
def cxMark : Int := itemKey ⟨"5", "aaaaaaaaaa", "2024-01-02 00:00"⟩

/-- Discriminator for a forced metadata-import event. -/
def isForcedImport : SyncEvent → Bool
  | .importCall _ true => true
  | _ => false

/-- The (gid, token) list built by importMissingGalleries for one sync run. -/
def syncGidlist (table : List GalleryRow) (items : List TorrentListItem) :
    List (Int × String) :=
  buildGidlistAux (missingGids table items) [] items

/-- The gallery identifiers whose metadata a sync run imports. -/
def syncImportedGids (table : List GalleryRow) (items : List TorrentListItem) : List Int :=
  (syncGidlist table items).map (fun p => p.1)

/-! Theorems.  Each claim of the specification is settled by exactly one
theorem below; helper lemmas are shared. -/

/-- Helper: a lookup in the loaded gid map returns the posted value of the
matching row when gids are unique. -/
theorem lookupPosted_loadGalleries (t : List GalleryRow) (r : GalleryRow)
    (hnd : (t.map (fun g => g.gid)).Nodup) (hr : r ∈ t) :
    lookupPosted (loadGalleries t) r.gid = some r.posted := by
  induction t with
  | nil => cases hr
  | cons h tl ih =>
    simp only [List.map_cons, List.nodup_cons] at hnd
    rcases List.mem_cons.mp hr with rfl | hmem
    · simp [lookupPosted, loadGalleries, List.find?_cons_of_pos]
    · have hne : h.gid ≠ r.gid := by
        intro he
        exact hnd.1 (he ▸ List.mem_map.mpr ⟨r, hmem, rfl⟩)
      have := ih hnd.2 hmem
      simpa [lookupPosted, loadGalleries, List.find?_cons_of_neg, hne] using this

/-- Helper: a record whose posted field does not parse leaves the table
unchanged in one import step. -/
theorem importOne_unparseable (existing : List (Int × Int)) (force : Bool)
    (tbl : List GalleryRow) (m : GalleryMetadata) (hm : parseInt64 m.posted = none) :
    importOne existing force tbl m = tbl := by
  unfold importOne
  split
  · rfl
  · simp [hm]

/-- Claim C8: a metadata record whose posted field fails to parse contributes no
insert and no update: importing a batch containing it yields exactly the
table obtained by importing the batch without it, so the remaining records
are processed and nothing is written for the bad record. -/
theorem import_skips_unparseable_posted (table : List GalleryRow)
    (pre post : List GalleryMetadata) (m : GalleryMetadata) (force : Bool)
    (hm : parseInt64 m.posted = none) :
    importMetadata table (pre ++ m :: post) force =
      importMetadata table (pre ++ post) force := by
  unfold importMetadata
  rw [List.foldl_append, List.foldl_append, List.foldl_cons,
    importOne_unparseable _ _ _ _ hm]

/-- Witness for C8 at a concrete record with posted = "not-a-number". -/
theorem import_skips_unparseable_posted_witness :
    importMetadata [cxStaleRow] ([] ++ cxBadMeta :: []) false =
      importMetadata [cxStaleRow] ([] ++ []) false :=
  import_skips_unparseable_posted [cxStaleRow] [] [] cxBadMeta false (by decide)

/-- Claim C2: for a record whose gid is already stored (with unique gids, a clean
API record and a parseable timestamp), Import updates the stored row exactly
when force is set or the new timestamp is strictly newer; otherwise the
table is returned unchanged. -/
theorem import_staleness_guard (table : List GalleryRow) (m : GalleryMetadata)
    (force : Bool) (r : GalleryRow) (ts : Int)
    (hnd : (table.map (fun g => g.gid)).Nodup) (hr : r ∈ table) (hgid : r.gid = m.gid)
    (herr : m.error = "") (hts : parseInt64 m.posted = some ts) :
    importMetadata table [m] force =
      if force || ts > r.posted then
        updateGallery table m ts (atoiGo m.filecount) (parseRatGo m.rating)
          (atoiGo m.torrentcount) (tagsToJSON (m.tags.map NormalizeTag))
      else table := by
  have hl : lookupPosted (loadGalleries table) m.gid = some r.posted :=
    hgid ▸ lookupPosted_loadGalleries table r hnd hr
  unfold importMetadata
  simp only [List.foldl_cons, List.foldl_nil]
  unfold importOne
  rw [if_neg (by simp [herr])]
  simp only [hts, hl]

/-- Witness for C2: a fresher record (posted 100 over stored 50) with
force = false takes the update branch. -/
theorem import_staleness_guard_witness :
    importMetadata [cxStaleRow] [cxMetaOracle 1] false =
      (if false || (100 : Int) > cxStaleRow.posted then
        updateGallery [cxStaleRow] (cxMetaOracle 1) 100 (atoiGo (cxMetaOracle 1).filecount)
          (parseRatGo (cxMetaOracle 1).rating) (atoiGo (cxMetaOracle 1).torrentcount)
          (tagsToJSON ((cxMetaOracle 1).tags.map NormalizeTag))
      else [cxStaleRow]) :=
  import_staleness_guard [cxStaleRow] (cxMetaOracle 1) false cxStaleRow 100
    (by decide) (by decide) (by decide) (by decide) (by decide)

/-- Claim C7: the sample ban message parses to exactly 5400 seconds (in
nanoseconds) with a positive ban classification, and any message that does
not contain the ban phrase is classified as not a ban with no duration. -/
theorem parseIPBanDuration_spec :
    parseIPBanDuration banMsg = (5400000000000, true) ∧
      ∀ s : String, strContainsGo s "temporarily banned" = false →
        parseIPBanDuration s = (0, false) := by
  refine ⟨by decide, ?_⟩
  intro s h
  simp [parseIPBanDuration, h]

/-- Witness for C7's universally quantified part at a concrete non-ban
message. -/
theorem parseIPBanDuration_spec_witness :
    parseIPBanDuration "context deadline exceeded" = (0, false) :=
  parseIPBanDuration_spec.2 "context deadline exceeded" (by decide)

/-- Claim C10: the MarkReplaced UPDATE carries WHERE root_gid IS NOT NULL, so a
row whose root_gid is null is returned exactly as stored, whatever its
replaced flag was. -/
theorem markReplaced_leaves_null_root (t : List GalleryRow) (i : Nat)
    (h1 : i < t.length) (h2 : i < (markReplaced t).length)
    (hnull : (t.get ⟨i, h1⟩).rootGid = none) :
    (markReplaced t).get ⟨i, h2⟩ = t.get ⟨i, h1⟩ := by
  simp only [markReplaced, List.get_eq_getElem, List.getElem_map]
  simp only [List.get_eq_getElem] at hnull
  simp [markRow, hnull]

/-- Witness for C10 at a one-row table whose row has null root_gid and
replaced = true. -/
theorem markReplaced_leaves_null_root_witness :
    (markReplaced [cxNullRootRow]).get ⟨0, by decide⟩ = [cxNullRootRow].get ⟨0, by decide⟩ :=
  markReplaced_leaves_null_root [cxNullRootRow] 0 (by decide) (by decide) (by decide)

/-- Helper: the effective retry bound is always positive. -/
theorem effectiveMaxRetries_pos (cfg : RetryConfig) : 0 < effectiveMaxRetries cfg := by
  unfold effectiveMaxRetries
  split <;> omega

/-- Helper: loop exit once the attempt counter reaches the bound. -/
theorem retryLoop_exhausted {b : Bool} {max i : Nat} {le : Option String}
    {sl : List Int} {outcomes : List (Outcome α)} (h : ¬ i < max) :
    retryLoop b max i le sl outcomes = .exceeded max (le.getD "") sl := by
  rw [retryLoop.eq_def]
  simp [h]

/-- Helper: a successful call returns immediately. -/
theorem retryLoop_ok {b : Bool} {max i : Nat} {le : Option String} {sl : List Int}
    {v : α} {rest : List (Outcome α)} (h : i < max) :
    retryLoop b max i le sl (.ok v :: rest) = .success v sl := by
  rw [retryLoop.eq_def]
  simp [h]

/-- Helper: an exhausted trace leaves the loop running. -/
theorem retryLoop_nil {b : Bool} {max i : Nat} {le : Option String} {sl : List Int}
    (h : i < max) : retryLoop (α := α) b max i le sl [] = .running i le sl := by
  rw [retryLoop.eq_def]
  simp [h]

/-- Helper: a recognized ban sleeps and resets the attempt counter. -/
theorem retryLoop_ban {b : Bool} {max i : Nat} {le : Option String} {sl : List Int}
    {msg : String} {rest : List (Outcome α)} (h : i < max)
    (hban : (b && (parseIPBanDuration msg).2) = true) :
    retryLoop b max i le sl (.fail msg :: rest) =
      retryLoop b max 0 (some msg) (sl ++ [banSleepNs msg]) rest := by
  rw [retryLoop.eq_def]
  simp [h, hban]

/-- Helper: an ordinary failure before the final attempt sleeps the linear
backoff and increments the counter. -/
theorem retryLoop_fail_sleep {b : Bool} {max i : Nat} {le : Option String}
    {sl : List Int} {msg : String} {rest : List (Outcome α)} (h : i < max)
    (hnb : (b && (parseIPBanDuration msg).2) = false) (h2 : i < max - 1) :
    retryLoop b max i le sl (.fail msg :: rest) =
      retryLoop b max (i + 1) (some msg) (sl ++ [backoffNs i]) rest := by
  rw [retryLoop.eq_def]
  simp [h, hnb, h2]

/-- Helper: an ordinary failure on the final attempt does not sleep. -/
theorem retryLoop_fail_last {b : Bool} {max i : Nat} {le : Option String}
    {sl : List Int} {msg : String} {rest : List (Outcome α)} (h : i < max)
    (hnb : (b && (parseIPBanDuration msg).2) = false) (h2 : ¬ i < max - 1) :
    retryLoop b max i le sl (.fail msg :: rest) =
      retryLoop b max (i + 1) (some msg) sl rest := by
  rw [retryLoop.eq_def]
  simp [h, hnb, h2]

/-- Helper: on a trace consisting solely of recognized ban failures the loop
consumes every entry, sleeping each parsed duration plus ten seconds and
resetting the attempt counter, and is still running at the end. -/
theorem retryLoop_all_bans {max : Nat} (msgs : List String) :
    ∀ (i : Nat) (le : Option String) (sl : List Int), i < max →
      (∀ m ∈ msgs, (parseIPBanDuration m).2 = true) →
      retryLoop (α := α) true max i le sl (msgs.map .fail) =
        .running (if msgs = [] then i else 0) (msgs.getLast?.or le)
          (sl ++ msgs.map banSleepNs) := by
  induction msgs with
  | nil => intro i le sl h _; simp [retryLoop_nil h]
  | cons m ms ih =>
    intro i le sl h hban
    have hb : (true && (parseIPBanDuration m).2) = true := by
      simp [hban m (List.mem_cons_self m ms)]
    rw [List.map_cons, retryLoop_ban h hb,
      ih 0 (some m) (sl ++ [banSleepNs m]) (Nat.lt_of_le_of_lt (Nat.zero_le i) h)
        (fun x hx => hban x (List.mem_cons_of_mem m hx))]
    cases ms with
    | nil => simp
    | cons m2 ms2 =>
      obtain ⟨x, hx⟩ := Option.isSome_iff_exists.mp
        (List.getLast?_isSome.mpr (List.cons_ne_nil m2 ms2))
      simp [List.getLast?_cons_cons, hx, Option.or]

/-- Claim C3: with ban awareness enabled, a sequence of consecutive recognized ban
failures, however long, never yields the terminal exceeded-max-retries
error: each ban sleeps its parsed duration plus ten seconds, the attempt
counter is reset to zero, and both Retry and RetryVoid are still running
(never exceeded) after the whole sequence. -/
theorem retry_ban_suspension_exempt (cfg : RetryConfig) (msgs : List String)
    (hb : cfg.WaitForIPUnban = true)
    (hban : ∀ m ∈ msgs, (parseIPBanDuration m).2 = true) :
    Retry (α := α) cfg (msgs.map .fail) =
        .running 0 msgs.getLast? (msgs.map banSleepNs) ∧
      RetryVoid cfg (msgs.map .fail) =
        .running 0 msgs.getLast? (msgs.map banSleepNs) ∧
      ∀ (n : Nat) (e : String) (s : List Int),
        Retry (α := α) cfg (msgs.map .fail) ≠ .exceeded n e s := by
  have key : ∀ (β : Type), Retry (α := β) cfg (msgs.map .fail) =
      .running 0 msgs.getLast? (msgs.map banSleepNs) := by
    intro β
    unfold Retry
    rw [hb, retryLoop_all_bans msgs 0 none [] (effectiveMaxRetries_pos cfg) hban]
    cases msgs <;> simp
  refine ⟨key α, key Unit, ?_⟩
  intro n e s
  rw [key α]
  intro hcontra
  exact RetryResult.noConfusion hcontra

/-- Witness for C3: two consecutive ban messages with ban awareness on. -/
theorem retry_ban_suspension_exempt_witness :
    Retry (α := Nat) ⟨2, true⟩ ([banMsg, banMsg].map .fail) =
        .running 0 [banMsg, banMsg].getLast? ([banMsg, banMsg].map banSleepNs) ∧
      RetryVoid ⟨2, true⟩ ([banMsg, banMsg].map .fail) =
        .running 0 [banMsg, banMsg].getLast? ([banMsg, banMsg].map banSleepNs) ∧
      ∀ (n : Nat) (e : String) (s : List Int),
        Retry (α := Nat) ⟨2, true⟩ ([banMsg, banMsg].map .fail) ≠ .exceeded n e s :=
  retry_ban_suspension_exempt ⟨2, true⟩ [banMsg, banMsg] (by decide) (by decide)

/-- Claim C9: when MaxRetries is not positive the fallback bound of 3 attempts is
used: a first successful call still runs (not zero attempts), and three
consecutive non-ban failures exhaust the budget with a terminal error
reporting 3 attempts, regardless of any further trace entries; RetryVoid
behaves identically. -/
theorem retry_fallback_default (cfg : RetryConfig) (hm : cfg.MaxRetries ≤ 0)
    (m1 m2 m3 : String)
    (hnb : ∀ m ∈ [m1, m2, m3], (cfg.WaitForIPUnban && (parseIPBanDuration m).2) = false)
    (v : α) (rest rest2 : List (Outcome α)) (restv : List (Outcome Unit)) :
    Retry cfg (.ok v :: rest2) = .success v [] ∧
      Retry cfg (.fail m1 :: .fail m2 :: .fail m3 :: rest) =
        .exceeded 3 m3 [backoffNs 0, backoffNs 1] ∧
      RetryVoid cfg (.fail m1 :: .fail m2 :: .fail m3 :: restv) =
        .exceeded 3 m3 [backoffNs 0, backoffNs 1] := by
  have hmax : effectiveMaxRetries cfg = 3 := by simp [effectiveMaxRetries, hm]
  have hb1 := hnb m1 (by simp)
  have hb2 := hnb m2 (by simp)
  have hb3 := hnb m3 (by simp)
  have hfail : ∀ (β : Type) (r : List (Outcome β)),
      Retry cfg (.fail m1 :: .fail m2 :: .fail m3 :: r) =
        .exceeded 3 m3 [backoffNs 0, backoffNs 1] := by
    intro β r
    unfold Retry
    rw [hmax, retryLoop_fail_sleep (by omega) hb1 (by omega),
      retryLoop_fail_sleep (by omega) hb2 (by omega),
      retryLoop_fail_last (by omega) hb3 (by omega),
      retryLoop_exhausted (by omega)]
    simp
  refine ⟨?_, hfail α rest, hfail Unit restv⟩
  unfold Retry
  rw [hmax, retryLoop_ok (by omega)]

/-- Witness for C9: MaxRetries = 0 with three plain failures, and an
immediate success. -/
theorem retry_fallback_default_witness :
    Retry (α := Nat) ⟨0, false⟩ (.ok 7 :: []) = .success 7 [] ∧
      Retry (α := Nat) ⟨0, false⟩ (.fail "a" :: .fail "b" :: .fail "c" :: []) =
        .exceeded 3 "c" [backoffNs 0, backoffNs 1] ∧
      RetryVoid ⟨0, false⟩ (.fail "a" :: .fail "b" :: .fail "c" :: []) =
        .exceeded 3 "c" [backoffNs 0, backoffNs 1] :=
  retry_fallback_default ⟨0, false⟩ (by decide) "a" "b" "c" (by decide) 7 [] [] []

/-- Counterexample for C5: a parsed torrent row without a content hash is
not recorded at all — processing it against an empty store leaves the store
empty, contradicting the claim that such rows are still recorded. -/
theorem torrent_nohash_not_recorded :
    cxNoHashTorrent.hash = none ∧
      processGalleryTorrents [] 7 [cxNoHashTorrent] = [] := by decide

/-- Helper: hash membership in the stored hashes of a group. -/
theorem mem_existingTorrentHashes {store : List TorrentRow} {rootGid : Int} {h : String} :
    h ∈ existingTorrentHashes store rootGid ↔
      ∃ s ∈ store, s.gid = rootGid ∧ s.hash = some h := by
  simp only [existingTorrentHashes, List.mem_filterMap, List.mem_filter]
  constructor
  · rintro ⟨s, ⟨hs, hgid⟩, hh⟩
    exact ⟨s, hs, by simpa using hgid, hh⟩
  · rintro ⟨s, hs, hgid, hh⟩
    exact ⟨s, ⟨hs, by simpa using hgid⟩, hh⟩

/-- Helper: when no incoming row collides with a stored (id, gid) key and
the incoming rows have pairwise distinct keys, saveTorrents appends. -/
theorem saveTorrents_append (store : List TorrentRow) (ts : List TorrentRow)
    (hcol : ∀ t ∈ ts, ∀ s ∈ store, ¬(s.id = t.id ∧ s.gid = t.gid))
    (hnd : ts.Pairwise (fun a b => ¬(a.id = b.id ∧ a.gid = b.gid))) :
    saveTorrents store ts = store ++ ts := by
  induction ts generalizing store with
  | nil => simp [saveTorrents]
  | cons t ts2 ih =>
    have hany : store.any (fun s => s.id = t.id && s.gid = t.gid) = false := by
      simp only [List.any_eq_false]
      intro s hs
      have := hcol t (List.mem_cons_self t ts2) s hs
      simp only [Bool.and_eq_true, decide_eq_true_eq]
      tauto
    have step : upsertTorrent store t = store ++ [t] := by
      unfold upsertTorrent
      rw [hany]
      simp
    have hcol2 : ∀ u ∈ ts2, ∀ s ∈ store ++ [t], ¬(s.id = u.id ∧ s.gid = u.gid) := by
      intro u hu s hs
      rcases List.mem_append.mp hs with hs2 | hs2
      · exact hcol u (List.mem_cons_of_mem t hu) s hs2
      · have : s = t := by simpa using hs2
        subst this
        exact (List.pairwise_cons.mp hnd).1 u hu
    calc saveTorrents store (t :: ts2)
        = saveTorrents (upsertTorrent store t) ts2 := rfl
      _ = saveTorrents (store ++ [t]) ts2 := by rw [step]
      _ = (store ++ [t]) ++ ts2 := ih (store ++ [t]) hcol2 (List.pairwise_cons.mp hnd).2
      _ = store ++ t :: ts2 := by simp

/-- Claim C5 amended: rows lacking a content hash are dropped before persistence
(never recorded), and rows whose hash is already stored in the root group
are not inserted again — in particular a batch of only hashless or
already-stored rows leaves the store unchanged, and a second identical
crawl pass over fresh rows adds nothing. -/
theorem torrent_dedup_amended (store : List TorrentRow) (rootGid : Int)
    (parsed : List TorrentRow) :
    ((∀ t ∈ parsed, t.hash = none ∨
        ∃ h, t.hash = some h ∧ h ∈ existingTorrentHashes store rootGid) →
      processGalleryTorrents store rootGid parsed = store) ∧
    ((∀ t ∈ parsed, t.gid = rootGid) →
      (parsed.map (fun t => t.id)).Nodup →
      (∀ t ∈ parsed, ∀ s ∈ store, ¬(s.id = t.id ∧ s.gid = t.gid)) →
      processGalleryTorrents (processGalleryTorrents store rootGid parsed) rootGid parsed =
        processGalleryTorrents store rootGid parsed) := by
  constructor
  · intro hall
    have hfil : filterNewTorrents parsed (existingTorrentHashes store rootGid) = [] := by
      unfold filterNewTorrents
      rw [List.filter_eq_nil_iff]
      intro t ht
      rcases hall t ht with hnone | ⟨h, hsome, hmem⟩
      · simp [hnone]
      · simp [hsome]
        exact hmem
    unfold processGalleryTorrents
    rw [hfil]
    rfl
  · intro hgid hids hcol
    set E := existingTorrentHashes store rootGid with hE
    set newTs := filterNewTorrents parsed E with hnew
    have hsub : newTs.Sublist parsed := List.filter_sublist parsed
    have hndnew : newTs.Pairwise (fun a b => ¬(a.id = b.id ∧ a.gid = b.gid)) := by
      have hp : parsed.Pairwise (fun a b => a.id ≠ b.id) :=
        (List.pairwise_map.mp hids)
      exact (hp.sublist hsub).imp (fun hne hand => hne hand.1)
    have hcolnew : ∀ t ∈ newTs, ∀ s ∈ store, ¬(s.id = t.id ∧ s.gid = t.gid) :=
      fun t ht s hs => hcol t (hsub.mem ht) s hs
    have happ : saveTorrents store newTs = store ++ newTs :=
      saveTorrents_append store newTs hcolnew hndnew
    have hstep1 : processGalleryTorrents store rootGid parsed = store ++ newTs := by
      unfold processGalleryTorrents
      rw [← hE, ← hnew, happ]
    rw [hstep1]
    have hfil2 : filterNewTorrents parsed
        (existingTorrentHashes (store ++ newTs) rootGid) = [] := by
      unfold filterNewTorrents
      rw [List.filter_eq_nil_iff]
      intro t ht
      cases hh : t.hash with
      | none => simp [hh]
      | some h =>
        have hmem : h ∈ existingTorrentHashes (store ++ newTs) rootGid := by
          by_cases hE1 : h ∈ E
          · rcases mem_existingTorrentHashes.mp hE1 with ⟨s, hs, hsg, hsh⟩
            exact mem_existingTorrentHashes.mpr ⟨s, List.mem_append_left _ hs, hsg, hsh⟩
          · have htn : t ∈ newTs := by
              rw [hnew]
              unfold filterNewTorrents
              refine List.mem_filter.mpr ⟨ht, ?_⟩
              simp [hh]
              exact hE1
            exact mem_existingTorrentHashes.mpr
              ⟨t, List.mem_append_right _ htn, hgid t ht, hh⟩
        simp [hh]
        exact hmem
    unfold processGalleryTorrents
    rw [hfil2]
    rfl

/-- Witness for C5's amended statement: a parsed row whose hash is already
stored in group 5 is not inserted again, and a repeat pass is a no-op. -/
theorem torrent_dedup_amended_witness :
    processGalleryTorrents [cxTorrentRow] 5 [cxDupTorrent] = [cxTorrentRow] ∧
      processGalleryTorrents (processGalleryTorrents [cxTorrentRow] 5 [cxDupTorrent]) 5
          [cxDupTorrent] =
        processGalleryTorrents [cxTorrentRow] 5 [cxDupTorrent] :=
  ⟨(torrent_dedup_amended [cxTorrentRow] 5 [cxDupTorrent]).1
      (by
        intro t ht
        have he : t = cxDupTorrent := by simpa using ht
        subst he
        exact Or.inr ⟨"0123456789012345678901234567890123456789", by decide, by decide⟩),
   (torrent_dedup_amended [cxTorrentRow] 5 [cxDupTorrent]).2
      (by decide) (by decide) (by decide)⟩

/-- Counterexample for C1: a stored set consisting of one gallery with null
root_gid and replaced = true is a version group (key = its own gid) in
which, after MarkReplaced — in either implementation variant — no member
has replaced = false, refuting the exactly-one-unreplaced claim for
arbitrary stored sets.  (Idempotence is unaffected.) -/
theorem markReplaced_counterexample :
    markReplaced [cxLoneRow] = [cxLoneRow] ∧
      markReplacedMulti [cxLoneRow] = [cxLoneRow] ∧
      groupKey cxLoneRow = 1 ∧
      ((markReplaced [cxLoneRow]).filter
        (fun g => decide (groupKey g = 1) && decide (g.replaced = false))).length = 0 := by
  decide

/-- Helper: markRow does not change the gid column. -/
theorem markRow_gid (M : List Int) (g : GalleryRow) : (markRow M g).gid = g.gid := by
  unfold markRow
  split <;> rfl

/-- Helper: markRow does not change the root_gid column. -/
theorem markRow_rootGid (M : List Int) (g : GalleryRow) :
    (markRow M g).rootGid = g.rootGid := by
  unfold markRow
  split <;> rfl

/-- Helper: markRow preserves the version-group key. -/
theorem markRow_groupKey (M : List Int) (g : GalleryRow) :
    groupKey (markRow M g) = groupKey g := by
  unfold groupKey
  rw [markRow_rootGid, markRow_gid]

/-- Helper: the member gids of a group are unchanged by a MarkReplaced pass. -/
theorem groupGids_map_markRow (t : List GalleryRow) (M : List Int) (k : Int) :
    groupGids (t.map (markRow M)) k = groupGids t k := by
  unfold groupGids
  rw [List.filter_map, List.map_map]
  have hp : ∀ g ∈ t,
      ((fun g => decide (groupKey g = k)) ∘ markRow M) g = decide (groupKey g = k) := by
    intro g _
    simp [Function.comp, markRow_groupKey]
  rw [List.filter_congr hp]
  have hf : ((fun g => g.gid) ∘ markRow M) = fun (g : GalleryRow) => g.gid :=
    funext fun g => markRow_gid M g
  rw [hf]

/-- Helper: the per-group maxima are unchanged by a MarkReplaced pass. -/
theorem groupMaxes_map_markRow (t : List GalleryRow) (M : List Int) :
    groupMaxes (t.map (markRow M)) = groupMaxes t := by
  unfold groupMaxes
  rw [List.map_map]
  have hk : ((groupKey ∘ markRow M)) = groupKey := funext fun g => markRow_groupKey M g
  rw [hk]
  have hm : ∀ k, maxGidOf (t.map (markRow M)) k = maxGidOf t k := by
    intro k
    unfold maxGidOf
    rw [groupGids_map_markRow]
  exact List.map_congr_left fun k _ => hm k

/-- Helper: one row is fixed by a second application of markRow with the
same max set. -/
theorem markRow_markRow (M : List Int) (g : GalleryRow) :
    markRow M (markRow M g) = markRow M g := by
  unfold markRow
  cases hr : g.rootGid with
  | none => simp [hr]
  | some r => simp [hr]

/-- Helper: the maximum of a nonempty Int list is one of its members. -/
theorem intListMax_mem : ∀ (l : List Int), l ≠ [] → intListMax l ∈ l
  | [], h => absurd rfl h
  | [x], _ => by simp [intListMax]
  | x :: y :: t, _ => by
    rw [intListMax]
    rcases max_choice x (intListMax (y :: t)) with hc | hc
    · rw [hc]; exact List.mem_cons_self x (y :: t)
    · rw [hc]
      exact List.mem_cons_of_mem x (intListMax_mem (y :: t) (List.cons_ne_nil y t))

/-- Helper: the maximum of an Int list bounds every member. -/
theorem le_intListMax : ∀ (l : List Int), ∀ x ∈ l, x ≤ intListMax l
  | [], x, hx => absurd hx (List.not_mem_nil x)
  | [y], x, hx => by
    have : x = y := by simpa using hx
    simp [this, intListMax]
  | y :: z :: t, x, hx => by
    rw [intListMax]
    rcases List.mem_cons.mp hx with rfl | hmem
    · exact le_max_left _ _
    · exact le_trans (le_intListMax (z :: t) x hmem) (le_max_right _ _)

/-- Helper: membership of a row's gid in the MAX(gid)-per-group set is
equivalent, under unique gids, to being the maximum of its own group. -/
theorem mem_groupMaxes_iff (t : List GalleryRow)
    (hnd : (t.map (fun g => g.gid)).Nodup) (g : GalleryRow) (hg : g ∈ t) :
    g.gid ∈ groupMaxes t ↔ g.gid = maxGidOf t (groupKey g) := by
  constructor
  · intro hmem
    rcases List.mem_map.mp hmem with ⟨k, hk, hkm⟩
    rcases List.mem_map.mp (List.mem_dedup.mp hk) with ⟨r0, hr0, hr0k⟩
    have hr0f : r0 ∈ t.filter (fun g => decide (groupKey g = k)) :=
      List.mem_filter.mpr ⟨hr0, by simp [hr0k]⟩
    have hne : groupGids t k ≠ [] := by
      unfold groupGids
      exact List.ne_nil_of_mem (List.mem_map.mpr ⟨r0, hr0f, rfl⟩)
    rcases List.mem_map.mp (intListMax_mem _ hne) with ⟨r, hrf, hrg⟩
    have hrt : r ∈ t := (List.mem_filter.mp hrf).1
    have hrk : groupKey r = k := by simpa using (List.mem_filter.mp hrf).2
    have hre : r = g :=
      List.inj_on_of_nodup_map hnd hrt hg (by rw [hrg]; exact hkm)
    rw [← hre, hrk]
    exact hrg
  · intro heq
    exact List.mem_map.mpr
      ⟨groupKey g, List.mem_dedup.mpr (List.mem_map.mpr ⟨g, hg, rfl⟩), heq.symm⟩

/-- Helper: a filter whose predicate selects exactly one member of a
duplicate-free list returns that singleton. -/
theorem filter_eq_single_of_unique {l : List GalleryRow} {p : GalleryRow → Bool}
    {r : GalleryRow} (hnodup : l.Nodup) (hr : r ∈ l) (hpr : p r = true)
    (huniq : ∀ x ∈ l, p x = true → x = r) : l.filter p = [r] := by
  induction l with
  | nil => cases hr
  | cons a as ih =>
    have hnd2 := List.nodup_cons.mp hnodup
    by_cases hae : a = r
    · subst hae
      rw [List.filter_cons_of_pos hpr]
      have hnil : as.filter p = [] := by
        rw [List.filter_eq_nil_iff]
        intro x hx hcontra
        exact hnd2.1 ((huniq x (List.mem_cons_of_mem a hx) hcontra) ▸ hx)
      rw [hnil]
    · have hmem : r ∈ as := by
        rcases List.mem_cons.mp hr with h1 | h1
        · exact absurd h1.symm hae
        · exact h1
      have hpa : p a = false := by
        cases h2 : p a
        · rfl
        · exact absurd (huniq a (List.mem_cons_self a as) h2) hae
      rw [List.filter_cons_of_neg (by simp [hpa])]
      exact ih hnd2.2 hmem (fun x hx => huniq x (List.mem_cons_of_mem a hx))

/-- Helper: markReplacedMulti is the row-wise map of markRowMulti. -/
theorem markReplacedMulti_eq_map (t : List GalleryRow) :
    markReplacedMulti t = t.map (markRowMulti t) := rfl

/-- Helper: defining equation of markRowMulti, usable for targeted rewrites. -/
theorem markRowMulti_spec (t2 : List GalleryRow) (h : GalleryRow) :
    markRowMulti t2 h =
      if 1 < groupSize t2 (groupKey h) then
        { h with replaced := decide (h.gid ≠ maxGidOf t2 (groupKey h)) }
      else h := rfl

/-- Helper: markRowMulti does not change the gid column. -/
theorem markRowMulti_gid (t : List GalleryRow) (g : GalleryRow) :
    (markRowMulti t g).gid = g.gid := by
  unfold markRowMulti
  split <;> rfl

/-- Helper: markRowMulti does not change the root_gid column. -/
theorem markRowMulti_rootGid (t : List GalleryRow) (g : GalleryRow) :
    (markRowMulti t g).rootGid = g.rootGid := by
  unfold markRowMulti
  split <;> rfl

/-- Helper: markRowMulti preserves the version-group key. -/
theorem markRowMulti_groupKey (t : List GalleryRow) (g : GalleryRow) :
    groupKey (markRowMulti t g) = groupKey g := by
  unfold groupKey
  rw [markRowMulti_rootGid, markRowMulti_gid]

/-- Helper: any row map preserving gid and root_gid preserves group keys. -/
theorem groupKey_comp_preserve {f : GalleryRow → GalleryRow}
    (hgid : ∀ g, (f g).gid = g.gid) (hroot : ∀ g, (f g).rootGid = g.rootGid)
    (g : GalleryRow) : groupKey (f g) = groupKey g := by
  unfold groupKey
  rw [hroot g, hgid g]

/-- Helper: any row map preserving gid and root_gid preserves the member
gids of every group. -/
theorem groupGids_map_preserve (t : List GalleryRow) {f : GalleryRow → GalleryRow}
    (hgid : ∀ g, (f g).gid = g.gid) (hroot : ∀ g, (f g).rootGid = g.rootGid)
    (k : Int) : groupGids (t.map f) k = groupGids t k := by
  unfold groupGids
  rw [List.filter_map, List.map_map]
  have hp : ∀ g ∈ t,
      ((fun g => decide (groupKey g = k)) ∘ f) g = decide (groupKey g = k) := by
    intro g _
    simp [Function.comp, groupKey_comp_preserve hgid hroot]
  rw [List.filter_congr hp]
  have hf2 : ((fun (g : GalleryRow) => g.gid) ∘ f) = fun (g : GalleryRow) => g.gid :=
    funext fun g => hgid g
  rw [hf2]

/-- Helper: any row map preserving gid and root_gid preserves group sizes. -/
theorem groupSize_map_preserve (t : List GalleryRow) {f : GalleryRow → GalleryRow}
    (hgid : ∀ g, (f g).gid = g.gid) (hroot : ∀ g, (f g).rootGid = g.rootGid)
    (k : Int) : groupSize (t.map f) k = groupSize t k := by
  unfold groupSize
  rw [List.filter_map, List.length_map]
  have hp : ∀ g ∈ t,
      ((fun g => decide (groupKey g = k)) ∘ f) g = decide (groupKey g = k) := by
    intro g _
    simp [Function.comp, groupKey_comp_preserve hgid hroot]
  rw [List.filter_congr hp]

/-- Helper: any row map preserving gid and root_gid preserves group maxima. -/
theorem maxGidOf_map_preserve (t : List GalleryRow) {f : GalleryRow → GalleryRow}
    (hgid : ∀ g, (f g).gid = g.gid) (hroot : ∀ g, (f g).rootGid = g.rootGid)
    (k : Int) : maxGidOf (t.map f) k = maxGidOf t k := by
  unfold maxGidOf
  rw [groupGids_map_preserve t hgid hroot k]

/-- Helper: a second application of the CTE-variant row update is absorbed. -/
theorem markRowMulti_absorb (t : List GalleryRow) (g : GalleryRow) :
    markRowMulti (t.map (markRowMulti t)) (markRowMulti t g) = markRowMulti t g := by
  have hsize := groupSize_map_preserve t (markRowMulti_gid t) (markRowMulti_rootGid t)
    (groupKey g)
  have hmax := maxGidOf_map_preserve t (markRowMulti_gid t) (markRowMulti_rootGid t)
    (groupKey g)
  rw [markRowMulti_spec (t.map (markRowMulti t)), markRowMulti_groupKey,
    hsize, hmax, markRowMulti_gid]
  by_cases hsz : 1 < groupSize t (groupKey g)
  · rw [if_pos hsz, markRowMulti_spec t g, if_pos hsz]
  · rw [if_neg hsz]

/-- Helper: the standalone MarkReplaced is idempotent on every stored set. -/
theorem markReplaced_idem (t : List GalleryRow) :
    markReplaced (markReplaced t) = markReplaced t := by
  unfold markReplaced
  rw [groupMaxes_map_markRow, List.map_map]
  exact List.map_congr_left fun g _ => markRow_markRow (groupMaxes t) g

/-- Helper: the CTE-variant MarkReplaced is idempotent on every stored set. -/
theorem markReplacedMulti_idem (t : List GalleryRow) :
    markReplacedMulti (markReplacedMulti t) = markReplacedMulti t := by
  rw [markReplacedMulti_eq_map t, markReplacedMulti_eq_map (t.map (markRowMulti t)),
    List.map_map]
  exact List.map_congr_left fun g _ => markRowMulti_absorb t g

/-- Helper: a nonempty group contains a row realizing its maximal gid. -/
theorem exists_max_row (t : List GalleryRow) (k : Int) (hk : ∃ g ∈ t, groupKey g = k) :
    ∃ r ∈ t, groupKey r = k ∧ r.gid = maxGidOf t k := by
  obtain ⟨g0, hg0, hg0k⟩ := hk
  have hg0f : g0 ∈ t.filter (fun g => decide (groupKey g = k)) :=
    List.mem_filter.mpr ⟨hg0, by simp [hg0k]⟩
  have hne : groupGids t k ≠ [] :=
    List.ne_nil_of_mem (List.mem_map.mpr ⟨g0, hg0f, rfl⟩)
  rcases List.mem_map.mp (intListMax_mem _ hne) with ⟨r, hrf, hrg⟩
  exact ⟨r, (List.mem_filter.mp hrf).1, by simpa using (List.mem_filter.mp hrf).2, hrg⟩

/-- Helper: under unique gids, filtering a nonempty group for its maximal
gid yields that single gid. -/
theorem filter_max_map_gid (t : List GalleryRow) (k : Int)
    (hnd : (t.map (fun g => g.gid)).Nodup) (hk : ∃ g ∈ t, groupKey g = k) :
    (t.filter (fun g => decide (groupKey g = k) && decide (g.gid = maxGidOf t k))).map
      (fun g => g.gid) = [maxGidOf t k] := by
  obtain ⟨r, hrt, hrk, hrg⟩ := exists_max_row t k hk
  have hsingle : t.filter
      (fun g => decide (groupKey g = k) && decide (g.gid = maxGidOf t k)) = [r] := by
    apply filter_eq_single_of_unique (List.Nodup.of_map _ hnd) hrt
    · simp only [Bool.and_eq_true, decide_eq_true_eq]
      exact ⟨hrk, hrg⟩
    · intro x hx hpx
      simp only [Bool.and_eq_true, decide_eq_true_eq] at hpx
      exact List.inj_on_of_nodup_map hnd hx hrt (by rw [hpx.2]; exact hrg.symm)
  rw [hsingle]
  simp only [List.map_cons, List.map_nil]
  exact congrArg (fun z => [z]) hrg

/-- Claim C1 amended: (1) running either replacement-marking variant a
second time changes no flags, for every stored set.  (2) For a stored set
with unique gids, the standalone UPDATE (WHERE root_gid IS NOT NULL) leaves
every version group all of whose members have a non-null root_gid with
exactly one member having replaced = false — the member with the maximum
gid, which bounds all member gids.  (3) The CTE variant (HAVING
COUNT(*) > 1) does the same for every version group with more than one
member.  Each restriction is forced by that variant's WHERE/HAVING clause,
as the counterexample shows. -/
theorem markReplaced_amended :
    (∀ t : List GalleryRow, markReplaced (markReplaced t) = markReplaced t) ∧
    (∀ t : List GalleryRow, markReplacedMulti (markReplacedMulti t) = markReplacedMulti t) ∧
    (∀ (t : List GalleryRow) (k : Int), (t.map (fun g => g.gid)).Nodup →
      (∃ g ∈ t, groupKey g = k) → (∀ g ∈ t, groupKey g = k → g.rootGid.isSome) →
      ((markReplaced t).filter
          (fun g => decide (groupKey g = k) && decide (g.replaced = false))).map
          (fun g => g.gid) = [maxGidOf t k] ∧
        ∀ g ∈ t, groupKey g = k → g.gid ≤ maxGidOf t k) ∧
    (∀ (t : List GalleryRow) (k : Int), (t.map (fun g => g.gid)).Nodup →
      (∃ g ∈ t, groupKey g = k) → 1 < groupSize t k →
      ((markReplacedMulti t).filter
          (fun g => decide (groupKey g = k) && decide (g.replaced = false))).map
          (fun g => g.gid) = [maxGidOf t k] ∧
        ∀ g ∈ t, groupKey g = k → g.gid ≤ maxGidOf t k) := by
  refine ⟨fun t => markReplaced_idem t, fun t => markReplacedMulti_idem t, ?_, ?_⟩
  · intro t k hnd hk hroot
    constructor
    · unfold markReplaced
      rw [List.filter_map, List.map_map]
      have hpred : ∀ g ∈ t,
          ((fun g => decide (groupKey g = k) && decide (g.replaced = false)) ∘
            markRow (groupMaxes t)) g =
          (decide (groupKey g = k) && decide (g.gid = maxGidOf t k)) := by
        intro g hg
        simp only [Function.comp]
        rw [markRow_groupKey]
        by_cases hgk : groupKey g = k
        · have hsome := hroot g hg hgk
          unfold markRow
          rw [if_pos hsome]
          by_cases hmm : g.gid ∈ groupMaxes t
          · have hgmax : g.gid = maxGidOf t k := by
              have h1 := (mem_groupMaxes_iff t hnd g hg).mp hmm
              rw [hgk] at h1
              exact h1
            have hmm2 : maxGidOf t k ∈ groupMaxes t := hgmax ▸ hmm
            simp [hgk, hgmax, hmm2]
          · have hgne : ¬ g.gid = maxGidOf t k := by
              intro hcontra
              exact hmm ((mem_groupMaxes_iff t hnd g hg).mpr (by rw [hgk]; exact hcontra))
            simp [hgk, hmm, hgne]
        · simp [hgk]
      rw [List.filter_congr hpred]
      have hf : ((fun (g : GalleryRow) => g.gid) ∘ markRow (groupMaxes t)) =
          fun (g : GalleryRow) => g.gid :=
        funext fun g => markRow_gid (groupMaxes t) g
      rw [hf]
      exact filter_max_map_gid t k hnd hk
    · intro g hg hgk
      have hmem : g.gid ∈ groupGids t k :=
        List.mem_map.mpr ⟨g, List.mem_filter.mpr ⟨hg, by simp [hgk]⟩, rfl⟩
      exact le_intListMax _ _ hmem
  · intro t k hnd hk hsize
    constructor
    · rw [markReplacedMulti_eq_map t, List.filter_map, List.map_map]
      have hpred : ∀ g ∈ t,
          ((fun g => decide (groupKey g = k) && decide (g.replaced = false)) ∘
            markRowMulti t) g =
          (decide (groupKey g = k) && decide (g.gid = maxGidOf t k)) := by
        intro g hg
        simp only [Function.comp]
        rw [markRowMulti_groupKey]
        by_cases hgk : groupKey g = k
        · have hsz : 1 < groupSize t (groupKey g) := by rw [hgk]; exact hsize
          rw [markRowMulti_spec t g, if_pos hsz]
          by_cases hge : g.gid = maxGidOf t k
          · simp [hgk, hge]
          · simp [hgk, hge]
        · simp [hgk]
      rw [List.filter_congr hpred]
      have hf : ((fun (g : GalleryRow) => g.gid) ∘ markRowMulti t) =
          fun (g : GalleryRow) => g.gid :=
        funext fun g => markRowMulti_gid t g
      rw [hf]
      exact filter_max_map_gid t k hnd hk
    · intro g hg hgk
      have hmem : g.gid ∈ groupGids t k :=
        List.mem_map.mpr ⟨g, List.mem_filter.mpr ⟨hg, by simp [hgk]⟩, rfl⟩
      exact le_intListMax _ _ hmem

/-- Witness for C1's amended statement: both idempotence parts at the
two-member table, and both exactly-one-unreplaced parts at its group 1. -/
theorem markReplaced_amended_witness :
    markReplaced (markReplaced [cxPairA, cxPairB]) = markReplaced [cxPairA, cxPairB] ∧
    markReplacedMulti (markReplacedMulti [cxPairA, cxPairB]) =
      markReplacedMulti [cxPairA, cxPairB] ∧
    (((markReplaced [cxPairA, cxPairB]).filter
        (fun g => decide (groupKey g = 1) && decide (g.replaced = false))).map
        (fun g => g.gid) = [maxGidOf [cxPairA, cxPairB] 1] ∧
      ∀ g ∈ [cxPairA, cxPairB], groupKey g = 1 → g.gid ≤ maxGidOf [cxPairA, cxPairB] 1) ∧
    (((markReplacedMulti [cxPairA, cxPairB]).filter
        (fun g => decide (groupKey g = 1) && decide (g.replaced = false))).map
        (fun g => g.gid) = [maxGidOf [cxPairA, cxPairB] 1] ∧
      ∀ g ∈ [cxPairA, cxPairB], groupKey g = 1 → g.gid ≤ maxGidOf [cxPairA, cxPairB] 1) :=
  ⟨markReplaced_amended.1 [cxPairA, cxPairB],
   markReplaced_amended.2.1 [cxPairA, cxPairB],
   markReplaced_amended.2.2.1 [cxPairA, cxPairB] 1 (by decide) (by decide) (by decide),
   markReplaced_amended.2.2.2 [cxPairA, cxPairB] 1 (by decide) (by decide) (by decide)⟩

/-- Helper: the head of a nonempty dropWhile residue fails the predicate. -/
theorem dropWhile_head_false {p : α → Bool} :
    ∀ {l : List α} {d : α} {dtl : List α}, l.dropWhile p = d :: dtl → p d = false := by
  intro l
  induction l with
  | nil => intro d dtl h; cases h
  | cons x xs ih =>
    intro d dtl h
    by_cases hx : p x = true
    · rw [List.dropWhile_cons_of_pos hx] at h
      exact ih h
    · rw [List.dropWhile_cons_of_neg hx] at h
      cases h
      exact Bool.eq_false_iff.mpr hx

/-- Helper: the item scan of fetchPages is takeWhile on the newer-than-mark
predicate, and the finish flag reports whether a not-newer item was hit. -/
theorem scanItems_spec (mark : Int) (p : List GalleryListItem)
    (hparse : ∀ it ∈ p, (parsePostedTime it.posted).isSome) :
    scanItems mark p =
      (p.takeWhile (fun it => decide (itemKey it > mark)),
        !(p.dropWhile (fun it => decide (itemKey it > mark))).isEmpty) := by
  induction p with
  | nil => simp [scanItems]
  | cons it its ih =>
    obtain ⟨v, hv⟩ := Option.isSome_iff_exists.mp
      (hparse it (List.mem_cons_self it its))
    have hkey : itemKey it = v := by simp [itemKey, hv]
    have ih2 := ih (fun x hx => hparse x (List.mem_cons_of_mem it hx))
    rw [List.takeWhile_cons, List.dropWhile_cons]
    by_cases hgt : v > mark
    · simp only [scanItems, hv]
      rw [if_pos hgt, ih2]
      simp [hkey, hgt]
    · simp only [scanItems, hv]
      rw [if_neg hgt]
      simp [hkey, hgt]

/-- Claim C6: on a well-formed strictly reverse-chronological listing (nonempty
pages, parseable keys, strictly decreasing across the whole listing) and
any high-water mark, fetchPages returns exactly the items strictly newer
than the mark in page order, and fetches pages only up to and including the
first page containing a not-newer item. -/
theorem fetchPages_high_water_mark (pages : List (List GalleryListItem)) (mark : Int)
    (hne : ∀ p ∈ pages, p ≠ [])
    (hparse : ∀ it ∈ pages.flatten, (parsePostedTime it.posted).isSome)
    (hdec : pages.flatten.Pairwise (fun a b => itemKey a > itemKey b)) :
    (fetchPages mark pages).1 =
        pages.flatten.filter (fun it => decide (itemKey it > mark)) ∧
      (pages.findIdx (fun p => p.any (fun it => decide (itemKey it ≤ mark))) <
          pages.length →
        (fetchPages mark pages).2 =
          pages.findIdx (fun p => p.any (fun it => decide (itemKey it ≤ mark))) + 1) := by
  induction pages with
  | nil => exact ⟨by simp [fetchPages], by intro h; simp at h⟩
  | cons p rest ih =>
    have hpne : p ≠ [] := hne p (List.mem_cons_self p rest)
    rw [List.flatten_cons] at hparse hdec
    obtain ⟨hdecP, hdecRest, hcross⟩ := List.pairwise_append.mp hdec
    have hparseP : ∀ it ∈ p, (parsePostedTime it.posted).isSome :=
      fun it hx => hparse it (List.mem_append_left _ hx)
    have hparseRest : ∀ it ∈ rest.flatten, (parsePostedTime it.posted).isSome :=
      fun it hx => hparse it (List.mem_append_right _ hx)
    have ih2 := ih (fun q hq => hne q (List.mem_cons_of_mem p hq)) hparseRest hdecRest
    have hscan := scanItems_spec mark p hparseP
    have hunfold : fetchPages mark (p :: rest) =
        (if p.isEmpty then (([] : List GalleryListItem), 1)
         else
          let r := scanItems mark p
          if r.2 then (r.1, 1)
          else
            let next := fetchPages mark rest
            (r.1 ++ next.1, next.2 + 1)) := rfl
    rw [List.flatten_cons]
    cases hD : p.dropWhile (fun it => decide (itemKey it > mark)) with
    | nil =>
      have hval : fetchPages mark (p :: rest) =
          (p.takeWhile (fun it => decide (itemKey it > mark)) ++ (fetchPages mark rest).1,
            (fetchPages mark rest).2 + 1) := by
        rw [hunfold, if_neg (by simp [hpne])]
        simp [hscan, hD]
      have htake : p.takeWhile (fun it => decide (itemKey it > mark)) = p := by
        have happ := List.takeWhile_append_dropWhile
          (fun it => decide (itemKey it > mark)) p
        rw [hD] at happ
        simpa using happ
      have hallK : ∀ it2 ∈ p, decide (itemKey it2 > mark) = true := by
        intro it2 hx
        apply List.mem_takeWhile_imp (p := fun it => decide (itemKey it > mark)) (l := p)
        rw [htake]
        exact hx
      have hanyF : p.any (fun it => decide (itemKey it ≤ mark)) = false := by
        rw [List.any_eq_false]
        intro x hx
        have hk := hallK x hx
        simp only [decide_eq_true_eq] at hk ⊢
        omega
      refine ⟨?_, ?_⟩
      · rw [hval, htake, List.filter_append, List.filter_eq_self.mpr hallK, ih2.1]
      · intro hlt
        rw [List.findIdx_cons, hanyF] at hlt ⊢
        simp only [cond_false] at hlt ⊢
        have hlt2 : rest.findIdx (fun q => q.any fun it => decide (itemKey it ≤ mark)) <
            rest.length := by
          simp only [List.length_cons] at hlt
          omega
        rw [hval]
        simp only [ih2.2 hlt2]
    | cons d dtl =>
      have hval : fetchPages mark (p :: rest) =
          (p.takeWhile (fun it => decide (itemKey it > mark)), 1) := by
        rw [hunfold, if_neg (by simp [hpne])]
        simp [hscan, hD]
      have hKd : decide (itemKey d > mark) = false :=
        dropWhile_head_false (p := fun it => decide (itemKey it > mark)) hD
      have hdmark : itemKey d ≤ mark := by
        simp only [decide_eq_false_iff_not] at hKd
        omega
      have hsubdd : (d :: dtl).Sublist p := by
        have hs := List.dropWhile_sublist (l := p) (fun it => decide (itemKey it > mark))
        rwa [hD] at hs
      have hdP : d ∈ p := hsubdd.mem (List.mem_cons_self d dtl)
      have hanyT : p.any (fun it => decide (itemKey it ≤ mark)) = true :=
        List.any_eq_true.mpr ⟨d, hdP, by simp [hdmark]⟩
      have hPdrop : (d :: dtl).Pairwise (fun a b => itemKey a > itemKey b) :=
        List.Pairwise.sublist hsubdd hdecP
      have hfilterDrop : (d :: dtl).filter (fun it => decide (itemKey it > mark)) = [] := by
        rw [List.filter_eq_nil_iff]
        intro x hx
        rcases List.mem_cons.mp hx with rfl | hx2
        · simp only [decide_eq_true_eq]; omega
        · have hrel : itemKey d > itemKey x := (List.pairwise_cons.mp hPdrop).1 x hx2
          simp only [decide_eq_true_eq]
          omega
      have hfilterRest : rest.flatten.filter (fun it => decide (itemKey it > mark)) = [] := by
        rw [List.filter_eq_nil_iff]
        intro y hy
        have hrel := hcross d hdP y hy
        simp only [decide_eq_true_eq]
        omega
      have hp2 : p = p.takeWhile (fun it => decide (itemKey it > mark)) ++ (d :: dtl) := by
        rw [← hD, List.takeWhile_append_dropWhile]
      have hfp : p.filter (fun it => decide (itemKey it > mark)) =
          p.takeWhile (fun it => decide (itemKey it > mark)) := by
        conv_lhs => rw [hp2]
        rw [List.filter_append,
          List.filter_eq_self.mpr (fun a ha =>
            List.mem_takeWhile_imp (p := fun it => decide (itemKey it > mark)) ha),
          hfilterDrop, List.append_nil]
      refine ⟨?_, ?_⟩
      · rw [hval, List.filter_append, hfilterRest, hfp, List.append_nil]
      · intro _
        rw [hval, List.findIdx_cons, hanyT]
        simp

/-- Witness for C6 on the synthetic listing with the mark at item 5. -/
theorem fetchPages_high_water_mark_witness :
    (fetchPages cxMark cxPages).1 =
        cxPages.flatten.filter (fun it => decide (itemKey it > cxMark)) ∧
      (cxPages.findIdx (fun p => p.any (fun it => decide (itemKey it ≤ cxMark))) <
          cxPages.length →
        (fetchPages cxMark cxPages).2 =
          cxPages.findIdx (fun p => p.any (fun it => decide (itemKey it ≤ cxMark))) + 1) :=
  fetchPages_high_water_mark cxPages cxMark (by decide) (by decide) (by decide)

/-- Counterexample for C4: a sync run that discovers the missing gallery 5
and persists its torrents imports its metadata through an importCall event
whose force flag is false — no forced import occurs anywhere in the trace,
refuting the claim that missing galleries are imported with force set. -/
theorem torrentSync_force_flag_counterexample :
    5 ∈ missingGids [] [⟨5, "abcdef0123", 1⟩] ∧
      (torrentSyncCore cxMetaOracle cxPageOracle [] [] [⟨5, "abcdef0123", 1⟩]).2.2 =
        [SyncEvent.importCall [5] false, SyncEvent.markBytorrent [5],
         SyncEvent.persistTorrents 5 5 [cxTorrentRow], SyncEvent.setRootGid 5 5] ∧
      (torrentSyncCore cxMetaOracle cxPageOracle [] [] [⟨5, "abcdef0123", 1⟩]).2.2.all
        (fun e => !isForcedImport e) = true := by
  decide

/-- Helper: chunking preserves the element sequence. -/
theorem chunksAux_flatten :
    ∀ (l acc : List α) (room : Nat), (chunksAux l acc room).flatten = acc.reverse ++ l := by
  intro l
  induction l with
  | nil => intro acc room; cases acc <;> simp [chunksAux]
  | cons x xs ih =>
    intro acc room
    by_cases hr : room = 0
    · simp [chunksAux, hr, ih [x] 24]
    · simp [chunksAux, hr, ih (x :: acc) (room - 1)]

/-- Helper: the 25-chunking flattens back to the original list. -/
theorem chunks25_flatten (l : List α) : (chunks25 l).flatten = l := by
  simpa using chunksAux_flatten l [] 25

/-- Helper: fetching metadata batch by batch equals mapping the oracle over
the whole gid list. -/
theorem chunks25_flatMap_map (gl : List α) (f : α → β) :
    (chunks25 gl).flatMap (fun batch => batch.map f) = gl.map f := by
  rw [List.flatMap_def, ← List.map_flatten, chunks25_flatten]

/-- Helper: first-occurrence deduplication only returns list members. -/
theorem mem_of_mem_distinctFirstAux :
    ∀ (l seen : List Int) (x : Int), x ∈ distinctFirstAux seen l → x ∈ l := by
  intro l
  induction l with
  | nil => intro seen x h; cases h
  | cons y ys ih =>
    intro seen x h
    unfold distinctFirstAux at h
    split at h
    · exact List.mem_cons_of_mem y (ih seen x h)
    · rcases List.mem_cons.mp h with rfl | h2
      · exact List.mem_cons_self x ys
      · exact List.mem_cons_of_mem y (ih (y :: seen) x h2)

/-- Helper: every missing gid appears among the firsts of the gidlist that
importMissingGalleries builds, provided it appears on the listing. -/
theorem buildGidlistAux_fst_mem (missing : List Int) (g : Int) :
    ∀ (items : List TorrentListItem) (seen : List Int), g ∈ missing → g ∉ seen →
      (∃ it ∈ items, it.gid = g) →
      g ∈ (buildGidlistAux missing seen items).map (fun p => p.1) := by
  intro items
  induction items with
  | nil =>
    rintro seen _ _ ⟨it, hit, _⟩
    cases hit
  | cons it its ih =>
    rintro seen hm hs ⟨it2, hit2, hgid⟩
    unfold buildGidlistAux
    by_cases hcond : it.gid ∈ missing ∧ it.gid ∉ seen
    · rw [if_pos hcond]
      by_cases hg : it.gid = g
      · simp [hg]
      · have hs2 : g ∉ it.gid :: seen := by
          intro hcontra
          rcases List.mem_cons.mp hcontra with h1 | h1
          · exact hg h1.symm
          · exact hs h1
        have hw : ∃ it3 ∈ its, it3.gid = g := by
          rcases List.mem_cons.mp hit2 with rfl | h2
          · exact absurd hgid hg
          · exact ⟨it2, h2, hgid⟩
        simp only [List.map_cons]
        exact List.mem_cons_of_mem _ (ih (it.gid :: seen) hm hs2 hw)
    · rw [if_neg hcond]
      have hw : ∃ it3 ∈ its, it3.gid = g := by
        rcases List.mem_cons.mp hit2 with rfl | h2
        · exfalso
          exact hcond ⟨hgid ▸ hm, fun hin => hs (hgid ▸ hin)⟩
        · exact ⟨it2, h2, hgid⟩
      exact ih seen hm hs hw

/-- Helper: the firsts of the built gidlist are distinct and lie in the
missing set but outside the seen set. -/
theorem buildGidlistAux_fst_nodup (missing : List Int) :
    ∀ (items : List TorrentListItem) (seen : List Int),
      ((buildGidlistAux missing seen items).map (fun p => p.1)).Nodup ∧
      ∀ x ∈ (buildGidlistAux missing seen items).map (fun p => p.1),
        x ∈ missing ∧ x ∉ seen := by
  intro items
  induction items with
  | nil => intro seen; simp [buildGidlistAux]
  | cons it its ih =>
    intro seen
    unfold buildGidlistAux
    by_cases hcond : it.gid ∈ missing ∧ it.gid ∉ seen
    · rw [if_pos hcond]
      obtain ⟨ihnd, ihmem⟩ := ih (it.gid :: seen)
      simp only [List.map_cons]
      constructor
      · rw [List.nodup_cons]
        refine ⟨?_, ihnd⟩
        intro hcontra
        exact (ihmem it.gid hcontra).2 (List.mem_cons_self _ _)
      · intro x hx
        rcases List.mem_cons.mp hx with rfl | h2
        · exact hcond
        · obtain ⟨h3, h4⟩ := ihmem x h2
          exact ⟨h3, fun hin => h4 (List.mem_cons_of_mem _ hin)⟩
    · rw [if_neg hcond]
      exact ih seen

/-- Helper: the UPDATE rewrites a row in place, keeping its gid. -/
theorem updateGallery_gid_present (table : List GalleryRow) (m : GalleryMetadata)
    (pi fc : Int) (rt : Rat) (tc : Int) (tj : String) (r : GalleryRow) (hr : r ∈ table) :
    ∃ r2 ∈ updateGallery table m pi fc rt tc tj, r2.gid = r.gid := by
  unfold updateGallery
  refine ⟨_, List.mem_map_of_mem _ hr, ?_⟩
  split <;> rfl

/-- Helper: one import step never removes a gid from the table. -/
theorem importOne_gid_present (existing : List (Int × Int)) (f : Bool)
    (tbl : List GalleryRow) (m : GalleryMetadata) (x : Int)
    (h : ∃ r ∈ tbl, r.gid = x) : ∃ r ∈ importOne existing f tbl m, r.gid = x := by
  obtain ⟨r, hr, hx⟩ := h
  unfold importOne
  split
  · exact ⟨r, hr, hx⟩
  · cases hp : parseInt64 m.posted with
    | none => simp only [hp]; exact ⟨r, hr, hx⟩
    | some pi =>
      simp only [hp]
      cases hl : lookupPosted existing m.gid with
      | none =>
        simp only [hl]
        unfold insertGallery
        split
        · exact ⟨r, hr, hx⟩
        · exact ⟨r, List.mem_append_left _ hr, hx⟩
      | some ep =>
        simp only [hl]
        split
        · obtain ⟨r2, hr2, he⟩ :=
            updateGallery_gid_present tbl m pi (atoiGo m.filecount) (parseRatGo m.rating)
              (atoiGo m.torrentcount) (tagsToJSON (m.tags.map NormalizeTag)) r hr
          exact ⟨r2, hr2, he.trans hx⟩
        · exact ⟨r, hr, hx⟩

/-- Helper: a whole import run never removes a gid from the table. -/
theorem foldl_importOne_gid_present (existing : List (Int × Int)) (f : Bool) :
    ∀ (ms : List GalleryMetadata) (tbl : List GalleryRow) (x : Int),
      (∃ r ∈ tbl, r.gid = x) →
      ∃ r ∈ ms.foldl (importOne existing f) tbl, r.gid = x := by
  intro ms
  induction ms with
  | nil => intro tbl x h; exact h
  | cons m0 ms2 ih =>
    intro tbl x h
    exact ih (importOne existing f tbl m0) x (importOne_gid_present existing f tbl m0 x h)

/-- Helper: an import run over clean records with fresh, distinct gids
inserts a row for every one of them. -/
theorem foldl_importOne_inserts (existing : List (Int × Int)) :
    ∀ (ms : List GalleryMetadata) (tbl : List GalleryRow),
      (ms.map (fun m => m.gid)).Nodup →
      (∀ m ∈ ms, m.error = "" ∧ (parseInt64 m.posted).isSome ∧
        lookupPosted existing m.gid = none ∧ ∀ r ∈ tbl, r.gid ≠ m.gid) →
      ∀ m ∈ ms, ∃ r ∈ ms.foldl (importOne existing false) tbl, r.gid = m.gid := by
  intro ms
  induction ms with
  | nil => intro tbl _ _ m hm; cases hm
  | cons m0 ms2 ih =>
    intro tbl hnd hgood m hm
    obtain ⟨he0, hp0, hl0, ha0⟩ := hgood m0 (List.mem_cons_self m0 ms2)
    obtain ⟨pi, hpi⟩ := Option.isSome_iff_exists.mp hp0
    simp only [List.map_cons, List.nodup_cons] at hnd
    set newRow := insertRow m0 pi (atoiGo m0.filecount) (parseRatGo m0.rating)
      (atoiGo m0.torrentcount) (tagsToJSON (m0.tags.map NormalizeTag)) with hnr
    have hany : tbl.any (fun g => g.gid = newRow.gid) = false := by
      rw [List.any_eq_false]
      intro r hr
      have := ha0 r hr
      simp only [decide_eq_true_eq]
      rw [hnr]
      exact this
    have hstep : importOne existing false tbl m0 = tbl ++ [newRow] := by
      unfold importOne
      rw [if_neg (by simp [he0])]
      simp only [hpi, hl0]
      unfold insertGallery
      rw [hany]
      simp
    rw [List.foldl_cons, hstep]
    rcases List.mem_cons.mp hm with rfl | hm2
    · apply foldl_importOne_gid_present
      exact ⟨newRow, List.mem_append_right _ (List.mem_cons_self _ _), by rw [hnr]; rfl⟩
    · apply ih (tbl ++ [newRow]) hnd.2
      · intro m2 hm2b
        obtain ⟨e2, p2, l2, a2⟩ := hgood m2 (List.mem_cons_of_mem m0 hm2b)
        refine ⟨e2, p2, l2, ?_⟩
        intro r hr
        rcases List.mem_append.mp hr with hr2 | hr2
        · exact a2 r hr2
        · have : r = newRow := by simpa using hr2
          subst this
          rw [hnr]
          intro hcontra
          have hgid0 : m0.gid = m2.gid := hcontra
          exact hnd.1 (hgid0.symm ▸ List.mem_map.mpr ⟨m2, hm2b, rfl⟩)
      · exact hm2

/-- Helper: processing one gallery's torrent page emits no import event. -/
theorem processOneGallery_no_import (po : Int → TorrentPageResult)
    (store : List TorrentRow) (g : Int) :
    ∀ e ∈ (processOneGallery po store g).2, ∀ gs b, e ≠ SyncEvent.importCall gs b := by
  intro e he gs b
  cases hpo : po g with
  | unavailable => unfold processOneGallery at he; rw [hpo] at he; simp at he
  | notFound => unfold processOneGallery at he; rw [hpo] at he; simp at he
  | noAnnounce => unfold processOneGallery at he; rw [hpo] at he; simp at he
  | torrents root parsed =>
    unfold processOneGallery at he
    rw [hpo] at he
    simp only at he
    rcases List.mem_append.mp he with h | h
    · split at h
      · simp at h
      · have he2 : e = SyncEvent.persistTorrents g root
            (filterNewTorrents parsed (existingTorrentHashes store root)) := by simpa using h
        rw [he2]
        intro hc
        exact SyncEvent.noConfusion hc
    · have he2 : e = SyncEvent.setRootGid g root := by simpa using h
      rw [he2]
      intro hc
      exact SyncEvent.noConfusion hc

/-- Helper: the torrent-processing fold emits no import event. -/
theorem foldl_process_no_import (po : Int → TorrentPageResult) :
    ∀ (gl : List Int) (acc : List TorrentRow × List SyncEvent),
      (∀ e ∈ acc.2, ∀ gs b, e ≠ SyncEvent.importCall gs b) →
      ∀ e ∈ (gl.foldl (fun (acc : List TorrentRow × List SyncEvent) g =>
          let r := processOneGallery po acc.1 g
          (r.1, acc.2 ++ r.2)) acc).2,
        ∀ gs b, e ≠ SyncEvent.importCall gs b := by
  intro gl
  induction gl with
  | nil => intro acc hacc e he; exact hacc e he
  | cons g gl2 ih =>
    intro acc hacc e he
    rw [List.foldl_cons] at he
    refine ih _ ?_ e he
    intro e2 he2
    rcases List.mem_append.mp he2 with h | h
    · exact hacc e2 h
    · exact processOneGallery_no_import po acc.1 g e2 h

/-- Helper: a gid absent from the table is absent from the loaded map. -/
theorem lookupPosted_none_of_absent (table : List GalleryRow) (g : Int)
    (h : ∀ r ∈ table, r.gid ≠ g) : lookupPosted (loadGalleries table) g = none := by
  unfold lookupPosted loadGalleries
  rw [List.find?_eq_none.mpr]
  intro x hx
  rcases List.mem_map.mp hx with ⟨r, hr, rfl⟩
  simp only [decide_eq_true_eq]
  exact h r hr

/-- Helper: membership in the missing set means no stored row has that gid. -/
theorem missingGids_absent (table : List GalleryRow) (items : List TorrentListItem) :
    ∀ g ∈ missingGids table items, ∀ r ∈ table, r.gid ≠ g := by
  intro g hg r hr
  have h2 := (List.mem_filter.mp hg).2
  rw [Bool.not_eq_true'] at h2
  have h3 := List.any_eq_false.mp h2 r hr
  simpa using h3

/-- Claim C4 amended: when the listing discovers galleries missing from the store,
their metadata is fetched and imported first — through a single import call
whose force flag is false (not true as claimed; for absent identifiers the
insert is unconditional, so the effect is the same) — and only afterwards
are torrents persisted: the import event heads the trace, no later event is
an import, every missing gid is covered by the import call, and the
resulting gallery table contains a row for each of them. -/
theorem torrentSync_missing_imported_first
    (metaOracle : Int → GalleryMetadata) (pageOracle : Int → TorrentPageResult)
    (table : List GalleryRow) (store : List TorrentRow) (items : List TorrentListItem)
    (hmeta : ∀ g : Int, (metaOracle g).gid = g ∧ (metaOracle g).error = "" ∧
      (parseInt64 (metaOracle g).posted).isSome)
    (hmiss : missingGids table items ≠ []) :
    (∀ g ∈ missingGids table items, g ∈ syncImportedGids table items) ∧
    ∃ rest,
      (torrentSyncCore metaOracle pageOracle table store items).2.2 =
        SyncEvent.importCall (syncImportedGids table items) false :: rest ∧
      (∀ e ∈ rest, ∀ gs b, e ≠ SyncEvent.importCall gs b) ∧
      (∀ g ∈ missingGids table items,
        ∃ r ∈ (torrentSyncCore metaOracle pageOracle table store items).1, r.gid = g) := by
  have hitems : items ≠ [] := by
    intro h
    apply hmiss
    rw [h]
    rfl
  have hisne : items.isEmpty = false := by
    cases items
    · exact absurd rfl hitems
    · rfl
  have hmem_items : ∀ g ∈ missingGids table items, ∃ it ∈ items, it.gid = g := by
    intro g hg
    have h1 : g ∈ discoveredGids items := (List.mem_filter.mp hg).1
    have h2 : g ∈ items.map (fun it => it.gid) :=
      mem_of_mem_distinctFirstAux _ [] g h1
    rcases List.mem_map.mp h2 with ⟨it, hit, he⟩
    exact ⟨it, hit, he⟩
  have hsub : ∀ g ∈ missingGids table items,
      g ∈ (buildGidlistAux (missingGids table items) [] items).map (fun p => p.1) := by
    intro g hg
    exact buildGidlistAux_fst_mem (missingGids table items) g items [] hg
      (by simp) (hmem_items g hg)
  obtain ⟨g0, hg0⟩ := List.exists_mem_of_ne_nil _ hmiss
  have hglne : (buildGidlistAux (missingGids table items) [] items).map
      (fun p => metaOracle p.1) ≠ [] := by
    intro hcontra
    have hnil := List.map_eq_nil_iff.mp hcontra
    have := hsub g0 hg0
    rw [hnil] at this
    cases this
  have hmissne : (missingGids table items).isEmpty = false := by
    cases hcase : missingGids table items
    · exact absurd hcase hmiss
    · rfl
  have hallMeta : (chunks25 (buildGidlistAux (missingGids table items) [] items)).flatMap
      (fun batch => batch.map (fun p => metaOracle p.1)) =
      (buildGidlistAux (missingGids table items) [] items).map (fun p => metaOracle p.1) :=
    chunks25_flatMap_map _ _
  have hmapne : ((buildGidlistAux (missingGids table items) [] items).map
      (fun p => metaOracle p.1)).isEmpty = false := by
    cases hcase : (buildGidlistAux (missingGids table items) [] items).map
        (fun p => metaOracle p.1)
    · exact absurd hcase hglne
    · rfl
  have himp : importMissingGalleries metaOracle table items (missingGids table items) =
      (importMetadata table ((buildGidlistAux (missingGids table items) [] items).map
          (fun p => metaOracle p.1)) false,
       [SyncEvent.importCall (((buildGidlistAux (missingGids table items) [] items).map
          (fun p => metaOracle p.1)).map (fun m => m.gid)) false]) := by
    unfold importMissingGalleries
    simp only [hallMeta, hmapne, Bool.false_eq_true, if_false]
  have hgsmap : (((buildGidlistAux (missingGids table items) [] items).map
      (fun p => metaOracle p.1)).map (fun m => m.gid)) =
      (buildGidlistAux (missingGids table items) [] items).map (fun p => p.1) := by
    rw [List.map_map]
    exact List.map_congr_left fun p _ => (hmeta p.1).1
  have hcore : torrentSyncCore metaOracle pageOracle table store items =
      ((importMissingGalleries metaOracle table items (missingGids table items)).1,
       ((discoveredGids items).foldl
          (fun (acc : List TorrentRow × List SyncEvent) g =>
            let r := processOneGallery pageOracle acc.1 g
            (r.1, acc.2 ++ r.2)) (store, [])).1,
       ((importMissingGalleries metaOracle table items (missingGids table items)).2 ++
          [SyncEvent.markBytorrent (discoveredGids items)]) ++
         ((discoveredGids items).foldl
          (fun (acc : List TorrentRow × List SyncEvent) g =>
            let r := processOneGallery pageOracle acc.1 g
            (r.1, acc.2 ++ r.2)) (store, [])).2) := by
    unfold torrentSyncCore
    simp only [hisne, hmissne, Bool.false_eq_true, if_false]
  constructor
  · intro g hg
    exact hsub g hg
  · refine ⟨[SyncEvent.markBytorrent (discoveredGids items)] ++
      ((discoveredGids items).foldl
        (fun (acc : List TorrentRow × List SyncEvent) g =>
          let r := processOneGallery pageOracle acc.1 g
          (r.1, acc.2 ++ r.2)) (store, [])).2, ?_, ?_, ?_⟩
    · rw [hcore]
      simp only [himp, hgsmap]
      unfold syncImportedGids syncGidlist
      simp
    · intro e he gs b
      rcases List.mem_append.mp he with h | h
      · have he2 : e = SyncEvent.markBytorrent (discoveredGids items) := by simpa using h
        rw [he2]
        intro hc
        exact SyncEvent.noConfusion hc
      · exact foldl_process_no_import pageOracle (discoveredGids items) (store, [])
          (by intro e2 he2; simp at he2) e h gs b
    · intro g hg
      rw [hcore]
      simp only [himp]
      have hnodup : (((buildGidlistAux (missingGids table items) [] items).map
          (fun p => metaOracle p.1)).map (fun m => m.gid)).Nodup := by
        rw [hgsmap]
        exact (buildGidlistAux_fst_nodup (missingGids table items) items []).1
      have hgood : ∀ m ∈ (buildGidlistAux (missingGids table items) [] items).map
          (fun p => metaOracle p.1), m.error = "" ∧ (parseInt64 m.posted).isSome ∧
          lookupPosted (loadGalleries table) m.gid = none ∧ ∀ r ∈ table, r.gid ≠ m.gid := by
        intro m hm
        rcases List.mem_map.mp hm with ⟨p, hp, rfl⟩
        have hp1 : p.1 ∈ (buildGidlistAux (missingGids table items) [] items).map
            (fun q => q.1) := List.mem_map.mpr ⟨p, hp, rfl⟩
        have hp1miss : p.1 ∈ missingGids table items :=
          ((buildGidlistAux_fst_nodup (missingGids table items) items []).2 p.1 hp1).1
        have habsent := missingGids_absent table items p.1 hp1miss
        have hgid := (hmeta p.1).1
        refine ⟨(hmeta p.1).2.1, (hmeta p.1).2.2, ?_, ?_⟩
        · rw [hgid]
          exact lookupPosted_none_of_absent table p.1 habsent
        · rw [hgid]
          exact habsent
      rcases List.mem_map.mp (hsub g hg) with ⟨p, hp, hpg⟩
      have hmmem : metaOracle p.1 ∈ (buildGidlistAux (missingGids table items) [] items).map
          (fun p => metaOracle p.1) := List.mem_map.mpr ⟨p, hp, rfl⟩
      obtain ⟨r, hr, hre⟩ := foldl_importOne_inserts (loadGalleries table) _ table
        hnodup hgood (metaOracle p.1) hmmem
      exact ⟨r, hr, by rw [hre, (hmeta p.1).1, hpg]⟩

/-- Witness for C4's amended statement on the concrete one-item listing. -/
theorem torrentSync_missing_imported_first_witness :
    (∀ g ∈ missingGids [] [⟨5, "abcdef0123", 1⟩],
      g ∈ syncImportedGids [] [⟨5, "abcdef0123", 1⟩]) ∧
    ∃ rest,
      (torrentSyncCore cxMetaOracle cxPageOracle [] [] [⟨5, "abcdef0123", 1⟩]).2.2 =
        SyncEvent.importCall (syncImportedGids [] [⟨5, "abcdef0123", 1⟩]) false :: rest ∧
      (∀ e ∈ rest, ∀ gs b, e ≠ SyncEvent.importCall gs b) ∧
      (∀ g ∈ missingGids [] [⟨5, "abcdef0123", 1⟩],
        ∃ r ∈ (torrentSyncCore cxMetaOracle cxPageOracle [] [] [⟨5, "abcdef0123", 1⟩]).1,
          r.gid = g) :=
  torrentSync_missing_imported_first cxMetaOracle cxPageOracle [] [] [⟨5, "abcdef0123", 1⟩]
    (fun g => ⟨rfl, rfl, rfl⟩) (by decide)

end Ehdb
